import Mathlib

/-!
Verification of the merge/partition engine, quest-identity resolver and
report parser of the fgo_harvest repository.

The Python sources are shallowly embedded:

* Python dicts with an `'id'` entry (the unit of `ReportMerger.merge`)
  become the structure `Rcd`: the merge code only reads `r['id']`,
  `'timestamp' in e` / `e['timestamp']`, and compares whole dicts for
  equality, so a record is embedded as its id, its optional timestamp and
  the list of its remaining fields.  Ids, timestamps and datetimes are
  embedded as integers (the code only uses their equality/order).
* Python's insertion-ordered dicts become association lists with
  position-preserving overwrite (`dictInsert`).
* `list.sort(key=k, reverse=True)` (a stable descending sort) becomes
  `List.insertionSort` (also stable) with the relation `k b ≤ k a`.
-/

/-- A published record as `ReportMerger.merge` sees it: a Python dict with
an `'id'` entry, an optional `'timestamp'` entry and the remaining fields.
An additional item (`model.SupportDictConversible`, e.g. `model.RunReport`)
is embedded by the same structure: its `get_id()` is the id, its
`as_dict()` is the record itself and its `equals` is dict equality. -/
structure Rcd where
  id : Int
  timestamp : Option Int
  fields : List (String × String)
deriving DecidableEq, Repr, Inhabited

/-- Position-preserving insertion into a Python dict (`d[k] = v`). -/
def dictInsert (d : List (Int × Rcd)) (k : Int) (v : Rcd) :
    List (Int × Rcd) :=
  match d with
  | [] => [(k, v)]
  | (k', v') :: t =>
      if k' = k then (k, v) :: t else (k', v') :: dictInsert t k v

/-- Dict lookup (`d[k]` / `k in d`). -/
def dictFind? (d : List (Int × Rcd)) (k : Int) : Option Rcd :=
  (d.find? (fun kv => kv.1 = k)).map (fun kv => kv.2)

/-- The values of a Python dict, in insertion order (`d.values()`). -/
def dictValues (d : List (Int × Rcd)) : List Rcd :=
  d.map (fun kv => kv.2)

/-- First record with the given id in a plain list of records. -/
def lookupById (l : List Rcd) (k : Int) : Option Rcd :=
  l.find? (fun r => r.id = k)

namespace ReportMerger

/-- Embeds `ReportMerger._make_index`: `d[r['id']] = r` over `original`
(the `deepcopy` flag only affects aliasing, not values). -/
def make_index (original : List Rcd) : List (Int × Rcd) :=
  original.foldl (fun d r => dictInsert d r.id r) []

/-- Embeds `ReportMerger.marged_list_sorter`: the sort key is
`e['timestamp']` when present, else `e['id']`. -/
def marged_list_sorter (e : Rcd) : Int :=
  match e.timestamp with
  | some t => t
  | none => e.id

/-- The relation of `merged_list.sort(key=..., reverse=True)`:
stable descending sort by `marged_list_sorter`. -/
def sortRel (a b : Rcd) : Prop :=
  marged_list_sorter b ≤ marged_list_sorter a

instance : DecidableRel sortRel := fun a b =>
  inferInstanceAs (Decidable (marged_list_sorter b ≤ marged_list_sorter a))

/-- One iteration of the loop body of `ReportMerger.merge`. -/
def mergeStep (index : List (Int × Rcd)) (merged : List (Int × Rcd))
    (item : Rcd) : List (Int × Rcd) :=
  match dictFind? index item.id with
  | none => dictInsert merged item.id item
  | some origin =>
      if item = origin then merged else dictInsert merged item.id item

/-- Embeds `ReportMerger.merge`. -/
def merge (additional_items : List Rcd) (original : List Rcd) :
    List Rcd :=
  let merged_dict := make_index original
  let index := make_index original
  let md := additional_items.foldl (mergeStep index) merged_dict
  List.insertionSort sortRel (dictValues md)

end ReportMerger

/-! Basic lemmas about the embedded Python dict operations. -/

theorem dictFind?_cons (k0 : Int) (v0 : Rcd) (t : List (Int × Rcd))
    (k : Int) :
    dictFind? ((k0, v0) :: t) k =
      if k0 = k then some v0 else dictFind? t k := by
  by_cases h : k0 = k <;> simp [dictFind?, List.find?_cons, h]

theorem dictFind?_dictInsert (d : List (Int × Rcd)) (k : Int) (v : Rcd)
    (k' : Int) :
    dictFind? (dictInsert d k v) k' =
      if k' = k then some v else dictFind? d k' := by
  induction d with
  | nil =>
      by_cases h : k' = k
      · simp [dictInsert, dictFind?_cons, h]
      · simp [dictInsert, dictFind?_cons, h, Ne.symm h, dictFind?]
  | cons kv t ih =>
      obtain ⟨k0, v0⟩ := kv
      by_cases hk : k0 = k
      · subst hk
        by_cases h : k' = k0
        · simp [dictInsert, dictFind?_cons, h]
        · simp [dictInsert, dictFind?_cons, h, Ne.symm h]
      · by_cases h : k' = k0
        · subst h
          simp [dictInsert, hk, dictFind?_cons, Ne.symm hk]
        · simp [dictInsert, hk, dictFind?_cons, h, Ne.symm h, ih]

theorem dictFind?_eq_none_iff (d : List (Int × Rcd)) (k : Int) :
    dictFind? d k = none ↔ ∀ kv ∈ d, kv.1 ≠ k := by
  simp [dictFind?, List.find?_eq_none]

theorem dictInsert_of_find?_none (d : List (Int × Rcd)) (k : Int) (v : Rcd)
    (h : dictFind? d k = none) :
    dictInsert d k v = d ++ [(k, v)] := by
  induction d with
  | nil => simp [dictInsert]
  | cons kv t ih =>
      obtain ⟨k0, v0⟩ := kv
      rw [dictFind?_eq_none_iff] at h
      have hk0 : k0 ≠ k := h (k0, v0) (by simp)
      simp only [dictInsert, if_neg hk0, List.cons_append,
        List.cons.injEq, true_and]
      exact ih ((dictFind?_eq_none_iff t k).2
        (fun kv hkv => h kv (List.mem_cons_of_mem _ hkv)))

theorem dictFind?_append (d₁ d₂ : List (Int × Rcd)) (k : Int) :
    dictFind? (d₁ ++ d₂) k =
      match dictFind? d₁ k with
      | some v => some v
      | none => dictFind? d₂ k := by
  simp only [dictFind?, List.find?_append]
  cases List.find? (fun kv => kv.1 = k) d₁ <;> simp [Option.or]

theorem mem_keys_dictInsert (d : List (Int × Rcd)) (k : Int) (v : Rcd)
    (x : Int) :
    x ∈ (dictInsert d k v).map Prod.fst ↔
      x = k ∨ x ∈ d.map Prod.fst := by
  induction d with
  | nil => simp [dictInsert]
  | cons kv t ih =>
      obtain ⟨k0, v0⟩ := kv
      by_cases hk : k0 = k
      · subst hk
        simp only [dictInsert, List.map_cons, List.mem_cons]
        simp
        try tauto
      · simp only [dictInsert, if_neg hk, List.map_cons, List.mem_cons, ih]
        tauto

/-- Well-formedness invariant satisfied by every dict the merge engine
builds: keys are distinct and each value's id is its key. -/
def DictWF (d : List (Int × Rcd)) : Prop :=
  (d.map Prod.fst).Nodup ∧ ∀ kv ∈ d, kv.2.id = kv.1

theorem dictWF_dictInsert (d : List (Int × Rcd)) (k : Int) (v : Rcd)
    (hwf : DictWF d) (hv : v.id = k) : DictWF (dictInsert d k v) := by
  induction d with
  | nil => exact ⟨by simp [dictInsert], by simp [dictInsert, hv]⟩
  | cons kv t ih =>
      obtain ⟨k0, v0⟩ := kv
      obtain ⟨hnd, hid⟩ := hwf
      simp only [List.map_cons, List.nodup_cons] at hnd
      have hidt : ∀ kv ∈ t, kv.2.id = kv.1 :=
        fun kv hkv => hid _ (List.mem_cons_of_mem _ hkv)
      by_cases hk : k0 = k
      · subst hk
        constructor
        · simpa [dictInsert] using hnd
        · intro kv hkv
          simp only [dictInsert] at hkv
          simp at hkv
          rcases hkv with h | h
          · subst h; exact hv
          · exact hidt _ h
      · obtain ⟨ih1, ih2⟩ := ih ⟨hnd.2, hidt⟩
        constructor
        · simp only [dictInsert, if_neg hk, List.map_cons, List.nodup_cons]
          exact ⟨fun hmem =>
            ((mem_keys_dictInsert t k v k0).1 hmem).elim hk hnd.1, ih1⟩
        · intro kv hkv
          simp only [dictInsert, if_neg hk] at hkv
          rcases List.mem_cons.1 hkv with h | h
          · subst h; exact hid _ (by simp)
          · exact ih2 _ h

theorem make_index_go (l : List Rcd) (acc : List (Int × Rcd))
    (h : (l.map Rcd.id).Nodup) (hd : ∀ r ∈ l, dictFind? acc r.id = none) :
    l.foldl (fun d r => dictInsert d r.id r) acc =
      acc ++ l.map (fun r => (r.id, r)) := by
  induction l generalizing acc with
  | nil => simp
  | cons r t ih =>
      simp only [List.map_cons, List.nodup_cons] at h
      have hstep : dictInsert acc r.id r = acc ++ [(r.id, r)] :=
        dictInsert_of_find?_none acc r.id r (hd r (by simp))
      have hd' : ∀ r' ∈ t, dictFind? (acc ++ [(r.id, r)]) r'.id = none := by
        intro r' hr'
        rw [dictFind?_append]
        rw [hd r' (List.mem_cons_of_mem _ hr')]
        have : r'.id ≠ r.id := by
          intro hcontr
          exact h.1 (hcontr ▸ List.mem_map_of_mem Rcd.id hr')
        simp [dictFind?_cons, dictFind?, Ne.symm this]
      simp only [List.foldl_cons, hstep]
      rw [ih (acc ++ [(r.id, r)]) h.2 hd']
      simp

theorem make_index_eq (l : List Rcd) (h : (l.map Rcd.id).Nodup) :
    ReportMerger.make_index l = l.map (fun r => (r.id, r)) := by
  simpa using make_index_go l [] h (by simp [dictFind?])

theorem dictFind?_map_form (l : List Rcd) (k : Int) :
    dictFind? (l.map (fun r => (r.id, r))) k = lookupById l k := by
  induction l with
  | nil => simp [dictFind?, lookupById]
  | cons r t ih =>
      simp only [List.map_cons, dictFind?_cons, lookupById, List.find?_cons]
      by_cases h : r.id = k <;> simp [h, ih, lookupById]

theorem dictWF_foldl_insert (l : List Rcd) (acc : List (Int × Rcd))
    (h : DictWF acc) :
    DictWF (l.foldl (fun d r => dictInsert d r.id r) acc) := by
  induction l generalizing acc with
  | nil => exact h
  | cons r t ih =>
      exact ih _ (dictWF_dictInsert acc r.id r h rfl)

theorem dictWF_make_index (l : List Rcd) :
    DictWF (ReportMerger.make_index l) :=
  dictWF_foldl_insert l [] ⟨List.nodup_nil, by simp⟩

theorem dictWF_mergeStep (idx acc : List (Int × Rcd)) (item : Rcd)
    (h : DictWF acc) : DictWF (ReportMerger.mergeStep idx acc item) := by
  unfold ReportMerger.mergeStep
  cases dictFind? idx item.id with
  | none => exact dictWF_dictInsert acc item.id item h rfl
  | some o =>
      by_cases he : item = o
      · simpa [he] using h
      · simpa [he] using dictWF_dictInsert acc item.id item h rfl

theorem dictWF_mergeFold (idx : List (Int × Rcd)) (l : List Rcd)
    (acc : List (Int × Rcd)) (h : DictWF acc) :
    DictWF (l.foldl (ReportMerger.mergeStep idx) acc) := by
  induction l generalizing acc with
  | nil => exact h
  | cons a t ih => exact ih _ (dictWF_mergeStep idx acc a h)

theorem lookupById_cons (r : Rcd) (t : List Rcd) (k : Int) :
    lookupById (r :: t) k = if r.id = k then some r else lookupById t k := by
  by_cases h : r.id = k <;> simp [lookupById, List.find?_cons, h]

theorem lookupById_dictValues (d : List (Int × Rcd)) (h : DictWF d)
    (k : Int) : lookupById (dictValues d) k = dictFind? d k := by
  induction d with
  | nil => rfl
  | cons kv t ih =>
      obtain ⟨k0, v0⟩ := kv
      obtain ⟨hnd, hid⟩ := h
      have hv0 : v0.id = k0 := hid (k0, v0) (by simp)
      have ht : DictWF t :=
        ⟨(List.nodup_cons.1 (by simpa using hnd)).2,
         fun kv hkv => hid _ (List.mem_cons_of_mem _ hkv)⟩
      have hvals : dictValues ((k0, v0) :: t) = v0 :: dictValues t := rfl
      rw [hvals, dictFind?_cons, lookupById_cons, hv0, ih ht]

theorem dictFind?_mergeFold (idx : List (Int × Rcd)) (l : List Rcd)
    (h : (l.map Rcd.id).Nodup) (acc : List (Int × Rcd)) (k : Int) :
    dictFind? (l.foldl (ReportMerger.mergeStep idx) acc) k =
      match lookupById l k with
      | none => dictFind? acc k
      | some a =>
          match dictFind? idx k with
          | none => some a
          | some o => if a = o then dictFind? acc k else some a := by
  induction l generalizing acc with
  | nil => simp [lookupById]
  | cons a t ih =>
      simp only [List.map_cons, List.nodup_cons] at h
      simp only [List.foldl_cons, lookupById_cons]
      by_cases hk : a.id = k
      · subst hk
        have ht : lookupById t a.id = none := by
          rw [lookupById, List.find?_eq_none]
          intro x hx hcontr
          have hxid : x.id = a.id := by simpa using hcontr
          exact h.1 (hxid ▸ List.mem_map_of_mem Rcd.id hx)
        rw [ih h.2, ht]
        simp only [if_pos rfl]
        unfold ReportMerger.mergeStep
        cases hidx : dictFind? idx a.id with
        | none => simp [dictFind?_dictInsert]
        | some o =>
            by_cases he : a = o
            · simp [he]
            · simp [he, dictFind?_dictInsert]
      · rw [ih h.2]
        have hacc : dictFind? (ReportMerger.mergeStep idx acc a) k =
            dictFind? acc k := by
          unfold ReportMerger.mergeStep
          cases dictFind? idx a.id with
          | none => simp [dictFind?_dictInsert, Ne.symm hk]
          | some o =>
              by_cases he : a = o
              · simp [he]
              · simp [he, dictFind?_dictInsert, Ne.symm hk]
        rw [hacc]
        simp [hk]

theorem lookupById_eq_some_of_mem (l : List Rcd) (k : Int)
    (h : (l.map Rcd.id).Nodup) (v : Rcd) (hv : v ∈ l) (hk : v.id = k) :
    lookupById l k = some v := by
  induction l with
  | nil => cases hv
  | cons x t ih =>
      simp only [List.map_cons, List.nodup_cons] at h
      rcases List.mem_cons.1 hv with he | hmem
      · subst he
        rw [lookupById_cons, if_pos hk]
      · have hx : x.id ≠ k := by
          intro hcontr
          exact h.1 ((hcontr.trans hk.symm) ▸
            List.mem_map_of_mem Rcd.id hmem)
        rw [lookupById_cons, if_neg hx]
        exact ih h.2 hmem

theorem lookupById_of_perm (l l' : List Rcd)
    (h : (l.map Rcd.id).Nodup) (hp : l.Perm l') (k : Int) :
    lookupById l k = lookupById l' k := by
  cases hfind : lookupById l k with
  | none =>
      symm
      rw [lookupById, List.find?_eq_none] at hfind ⊢
      exact fun x hx => hfind x (hp.symm.subset hx)
  | some v =>
      have hvmem : v ∈ l := List.mem_of_find?_eq_some hfind
      have hvk : v.id = k := by simpa using List.find?_some hfind
      have h' : (l'.map Rcd.id).Nodup := (hp.map Rcd.id).nodup h
      exact (lookupById_eq_some_of_mem l' k h' v (hp.subset hvmem) hvk).symm

theorem dictValues_map_id (d : List (Int × Rcd)) (h : DictWF d) :
    (dictValues d).map Rcd.id = d.map Prod.fst := by
  rw [dictValues, List.map_map]
  exact List.map_congr_left (fun kv hkv => h.2 kv hkv)

instance : IsTotal Rcd ReportMerger.sortRel :=
  ⟨fun a b => le_total (ReportMerger.marged_list_sorter b)
    (ReportMerger.marged_list_sorter a)⟩

instance : IsTrans Rcd ReportMerger.sortRel :=
  ⟨fun _ _ _ h₁ h₂ => le_trans h₂ h₁⟩

/-- The dictionary computed by the loop of `ReportMerger.merge`, before the
final sort. -/
def mergeDict (add orig : List Rcd) : List (Int × Rcd) :=
  add.foldl (ReportMerger.mergeStep (ReportMerger.make_index orig))
    (ReportMerger.make_index orig)

theorem merge_eq_sort_mergeDict (add orig : List Rcd) :
    ReportMerger.merge add orig =
      List.insertionSort ReportMerger.sortRel
        (dictValues (mergeDict add orig)) := rfl

theorem dictWF_mergeDict (add orig : List Rcd) :
    DictWF (mergeDict add orig) :=
  dictWF_mergeFold _ add _ (dictWF_make_index orig)

theorem lookupById_merge (add orig : List Rcd)
    (hna : (add.map Rcd.id).Nodup) (hno : (orig.map Rcd.id).Nodup)
    (k : Int) :
    lookupById (ReportMerger.merge add orig) k =
      match lookupById add k with
      | some a => some a
      | none => lookupById orig k := by
  have hwf : DictWF (mergeDict add orig) := dictWF_mergeDict add orig
  have hnodup : ((dictValues (mergeDict add orig)).map Rcd.id).Nodup := by
    rw [dictValues_map_id _ hwf]; exact hwf.1
  rw [merge_eq_sort_mergeDict,
    ← lookupById_of_perm _ _ hnodup
      (List.perm_insertionSort ReportMerger.sortRel
        (dictValues (mergeDict add orig))).symm k,
    lookupById_dictValues _ hwf]
  rw [mergeDict, dictFind?_mergeFold _ add hna _ k]
  have hidx : dictFind? (ReportMerger.make_index orig) k =
      lookupById orig k := by
    rw [make_index_eq orig hno, dictFind?_map_form]
  cases lookupById add k with
  | none => exact hidx
  | some a =>
      rw [hidx]
      cases lookupById orig k with
      | none => rfl
      | some o =>
          by_cases he : a = o
          · simp [he]
          · simp [he]

theorem merge_ids_nodup (add orig : List Rcd) :
    ((ReportMerger.merge add orig).map Rcd.id).Nodup := by
  have hwf : DictWF (mergeDict add orig) := dictWF_mergeDict add orig
  have hnodup : ((dictValues (mergeDict add orig)).map Rcd.id).Nodup := by
    rw [dictValues_map_id _ hwf]; exact hwf.1
  rw [merge_eq_sort_mergeDict]
  exact ((List.perm_insertionSort ReportMerger.sortRel
    (dictValues (mergeDict add orig))).map Rcd.id).symm.nodup hnodup

/-- C1: for every `original` (dicts keyed by id) and `additional`,
`ReportMerger.merge` returns the union of both inputs keyed by ID — an
additional record with a fresh ID is added, one with a present but deeply
unequal dict replaces the original entry, one deeply equal leaves the
original entry (an identical value) in place — the result has one entry
per ID, and is sorted descending by each element's timestamp, falling back
to its ID when the timestamp field is absent. -/
theorem c1_report_merger_merge_by_id (additional original : List Rcd)
    (hna : (additional.map Rcd.id).Nodup)
    (hno : (original.map Rcd.id).Nodup) :
    (∀ k, lookupById (ReportMerger.merge additional original) k =
        match lookupById additional k with
        | some a => some a
        | none => lookupById original k) ∧
    ((ReportMerger.merge additional original).map Rcd.id).Nodup ∧
    List.Pairwise (fun x y => ReportMerger.marged_list_sorter y ≤
      ReportMerger.marged_list_sorter x)
      (ReportMerger.merge additional original) := by
  refine ⟨fun k => lookupById_merge additional original hna hno k,
    merge_ids_nodup additional original, ?_⟩
  rw [merge_eq_sort_mergeDict]
  exact List.sorted_insertionSort ReportMerger.sortRel
    (dictValues (mergeDict additional original))

/-- Witness for C1, at the spec's own example: `original=[{id:1,v:"a"}]`
with an equal and with an unequal additional record. -/
theorem c1_report_merger_merge_by_id_witness :
    lookupById (ReportMerger.merge [⟨1, none, [("v", "b")]⟩]
      [⟨1, none, [("v", "a")]⟩]) 1 = some ⟨1, none, [("v", "b")]⟩ ∧
    ReportMerger.merge [⟨1, none, [("v", "a")]⟩] [⟨1, none, [("v", "a")]⟩]
      = [⟨1, none, [("v", "a")]⟩] ∧
    ReportMerger.merge [⟨1, none, [("v", "b")]⟩] [⟨1, none, [("v", "a")]⟩]
      = [⟨1, none, [("v", "b")]⟩] := by
  refine ⟨?_, by decide, by decide⟩
  have h := (c1_report_merger_merge_by_id [⟨1, none, [("v", "b")]⟩]
    [⟨1, none, [("v", "a")]⟩] (by decide) (by decide)).1 1
  rw [h]
  decide

theorem lookupById_merge_of_mem (add orig : List Rcd)
    (hna : (add.map Rcd.id).Nodup) (a : Rcd) (ha : a ∈ add) :
    lookupById (ReportMerger.merge add orig) a.id = some a := by
  have hwf : DictWF (mergeDict add orig) := dictWF_mergeDict add orig
  have hnodup : ((dictValues (mergeDict add orig)).map Rcd.id).Nodup := by
    rw [dictValues_map_id _ hwf]; exact hwf.1
  rw [merge_eq_sort_mergeDict,
    ← lookupById_of_perm _ _ hnodup
      (List.perm_insertionSort ReportMerger.sortRel
        (dictValues (mergeDict add orig))).symm a.id,
    lookupById_dictValues _ hwf, mergeDict,
    dictFind?_mergeFold _ add hna _ a.id]
  have hadd : lookupById add a.id = some a :=
    lookupById_eq_some_of_mem add a.id hna a ha rfl
  rw [hadd]
  cases hidx : dictFind? (ReportMerger.make_index orig) a.id with
  | none => rfl
  | some o =>
      by_cases he : a = o
      · simp [he, hidx]
      · simp [he]

theorem mergeFold_fixed (idx : List (Int × Rcd)) (l : List Rcd)
    (h : ∀ a ∈ l, dictFind? idx a.id = some a) :
    l.foldl (ReportMerger.mergeStep idx) idx = idx := by
  induction l with
  | nil => rfl
  | cons a t ih =>
      have hstep : ReportMerger.mergeStep idx idx a = idx := by
        unfold ReportMerger.mergeStep
        rw [h a (by simp)]
        simp
      simp only [List.foldl_cons, hstep]
      exact ih (fun a ha => h a (List.mem_cons_of_mem _ ha))

theorem merge_fixed_point (add orig : List Rcd)
    (hna : (add.map Rcd.id).Nodup) :
    ReportMerger.merge add (ReportMerger.merge add orig) =
      ReportMerger.merge add orig := by
  have hMnodup : ((ReportMerger.merge add orig).map Rcd.id).Nodup :=
    merge_ids_nodup add orig
  have hmi : ReportMerger.make_index (ReportMerger.merge add orig) =
      (ReportMerger.merge add orig).map (fun r => (r.id, r)) :=
    make_index_eq _ hMnodup
  have hlook : ∀ a ∈ add,
      dictFind? (ReportMerger.make_index (ReportMerger.merge add orig))
        a.id = some a := by
    intro a ha
    rw [hmi, dictFind?_map_form]
    exact lookupById_merge_of_mem add orig hna a ha
  show List.insertionSort ReportMerger.sortRel
      (dictValues (add.foldl
        (ReportMerger.mergeStep
          (ReportMerger.make_index (ReportMerger.merge add orig)))
        (ReportMerger.make_index (ReportMerger.merge add orig))))
    = ReportMerger.merge add orig
  rw [mergeFold_fixed _ add hlook, hmi]
  have hvals : dictValues ((ReportMerger.merge add orig).map
      (fun r => (r.id, r))) = ReportMerger.merge add orig := by
    simp only [dictValues, List.map_map]
    exact (List.map_congr_left (fun r _ => rfl)).trans (List.map_id _)
  rw [hvals]
  refine List.Sorted.insertionSort_eq ?_
  rw [merge_eq_sort_mergeDict]
  exact List.sorted_insertionSort ReportMerger.sortRel _

namespace Recorder

/-- Embeds the write/skip decision of `Recorder.save` for one output
format: a partition is written iff its report list is nonempty, the
skip-save rule does not match its key, and either `force` is set or the
merged list differs (deep equality) from the previously published
`original` list for that key. -/
def save_writes (partitions : List (String × List Rcd))
    (skipMatch : String → Bool) (original : String → List Rcd)
    (force : Bool) : List String :=
  (partitions.filter (fun kv =>
    !kv.2.isEmpty && !skipMatch kv.1 &&
      (force || decide
        (ReportMerger.merge kv.2 (original kv.1) ≠ original kv.1)))).map
    Prod.fst

end Recorder

/-- C2 counterexample: when the additional list carries two records with
the same ID, merging it into the already-merged result is not a fixed
point — the loop compares each item against the index built from
`original` only, so the first duplicate overwrites the second one's value
again on the second pass. -/
theorem c2_recorder_save_idempotent_counterexample :
    ReportMerger.merge
        [⟨1, none, [("v", "x")]⟩, ⟨1, none, [("v", "y")]⟩]
        (ReportMerger.merge
          [⟨1, none, [("v", "x")]⟩, ⟨1, none, [("v", "y")]⟩] []) ≠
      ReportMerger.merge
        [⟨1, none, [("v", "x")]⟩, ⟨1, none, [("v", "y")]⟩] [] := by
  decide

/-- C2 (amended): provided the additional records of a partition carry
pairwise-distinct IDs, `Recorder.save` with `force=false` is idempotent:
any partition whose published list already is the result of merging the
partition's records into some previous state is skipped, so a second
`save()` over already-published records performs zero writes; and merging
the same additional records into an already-merged result is a fixed
point. -/
theorem c2_recorder_save_idempotent (partitions : List (String × List Rcd))
    (skipMatch : String → Bool) (original : String → List Rcd)
    (hna : ∀ kv ∈ partitions, ((kv.2).map Rcd.id).Nodup)
    (hpub : ∀ kv ∈ partitions, ∃ prev,
      original kv.1 = ReportMerger.merge kv.2 prev) :
    Recorder.save_writes partitions skipMatch original false = [] ∧
    (∀ add orig : List Rcd, (add.map Rcd.id).Nodup →
      ReportMerger.merge add (ReportMerger.merge add orig) =
        ReportMerger.merge add orig) := by
  constructor
  · rw [Recorder.save_writes, List.map_eq_nil, List.filter_eq_nil]
    intro kv hkv
    obtain ⟨prev, hprev⟩ := hpub kv hkv
    have hfix : ReportMerger.merge kv.2 (original kv.1) = original kv.1 := by
      rw [hprev]
      exact merge_fixed_point kv.2 prev (hna kv hkv)
    simp [hfix]
  · exact fun add orig h => merge_fixed_point add orig h

/-- Witness for C2 (amended): one partition whose records were already
published by a first `save`; the second `save` writes nothing. -/
theorem c2_recorder_save_idempotent_witness :
    Recorder.save_writes [("p", [⟨1, none, [("v", "a")]⟩])]
      (fun _ => false)
      (fun _ => ReportMerger.merge [⟨1, none, [("v", "a")]⟩] [])
      false = [] ∧
    ReportMerger.merge [⟨1, none, [("v", "a")]⟩]
        (ReportMerger.merge [⟨1, none, [("v", "a")]⟩] []) =
      ReportMerger.merge [⟨1, none, [("v", "a")]⟩] [] := by
  have h := c2_recorder_save_idempotent
    [("p", [⟨1, none, [("v", "a")]⟩])] (fun _ => false)
    (fun _ => ReportMerger.merge [⟨1, none, [("v", "a")]⟩] [])
    (by intro kv hkv; simp at hkv; subst hkv; decide)
    (by intro kv hkv; simp at hkv; subst hkv; exact ⟨[], rfl⟩)
  exact ⟨h.1, h.2 [⟨1, none, [("v", "a")]⟩] [] (by decide)⟩

/-! Heap model for the frame property of `ReportMerger.merge` (claim C10).
Python dicts are mutable heap objects; to state that `merge` neither
mutates the dicts reachable from `original` nor returns aliases of them,
the very same code is embedded once more in store-passing style: a heap is
a list of `Rcd` cells, an address is an index into it, and allocation
appends a cell.  `copy.deepcopy(r)` allocates a fresh cell holding the
value of `r`; `item.as_dict()` allocates a fresh cell holding the item's
dict value (every `as_dict` in the code base builds a new dict). -/

abbrev Heap := List Rcd

def heapAlloc (h : Heap) (v : Rcd) : Heap × Nat := (h ++ [v], h.length)

def heapRead (h : Heap) (a : Nat) : Rcd := h.getD a default

/-- Address-valued Python dict insertion (`d[k] = v`). -/
def dictInsertA (d : List (Int × Nat)) (k : Int) (v : Nat) :
    List (Int × Nat) :=
  match d with
  | [] => [(k, v)]
  | (k', v') :: t =>
      if k' = k then (k, v) :: t else (k', v') :: dictInsertA t k v

/-- Address-valued dict lookup. -/
def dictFindA? (d : List (Int × Nat)) (k : Int) : Option Nat :=
  (d.find? (fun kv => kv.1 = k)).map (fun kv => kv.2)

namespace ReportMergerH

/-- One step of `_make_index(original, deepcopy=True)`:
`d[r['id']] = copy.deepcopy(r)`. -/
def copyStep (st : Heap × List (Int × Nat)) (a : Nat) :
    Heap × List (Int × Nat) :=
  let r := heapRead st.1 a
  let alloc := heapAlloc st.1 r
  (alloc.1, dictInsertA st.2 r.id alloc.2)

/-- Embeds `_make_index(original, deepcopy=True)`. -/
def make_index_copy (h : Heap) (original : List Nat) :
    Heap × List (Int × Nat) :=
  original.foldl copyStep (h, [])

/-- Embeds `_make_index(original, deepcopy=False)`: `d[r['id']] = r`
stores the original addresses themselves. -/
def make_index_alias (h : Heap) (original : List Nat) :
    List (Int × Nat) :=
  original.foldl (fun d a => dictInsertA d (heapRead h a).id a) []

/-- One iteration of the loop of `merge`, store-passing: a missing or
deeply-unequal item allocates `item.as_dict()` and stores its address. -/
def mergeStepH (h0 : Heap) (idx : List (Int × Nat))
    (st : Heap × List (Int × Nat)) (item : Rcd) :
    Heap × List (Int × Nat) :=
  match dictFindA? idx item.id with
  | none =>
      let alloc := heapAlloc st.1 item
      (alloc.1, dictInsertA st.2 item.id alloc.2)
  | some aOrig =>
      if item = heapRead h0 aOrig then st
      else
        let alloc := heapAlloc st.1 item
        (alloc.1, dictInsertA st.2 item.id alloc.2)

/-- Embeds `ReportMerger.merge` in store-passing style; returns the final
heap and the addresses of the merged list. -/
def mergeH (h : Heap) (additional : List Rcd) (original : List Nat) :
    Heap × List Nat :=
  let st₁ := make_index_copy h original
  let index := make_index_alias h original
  let st₂ := additional.foldl (mergeStepH h index) st₁
  (st₂.1, List.insertionSort
    (fun a b => ReportMerger.sortRel (heapRead st₂.1 a) (heapRead st₂.1 b))
    (st₂.2.map Prod.snd))

end ReportMergerH

theorem mem_dictInsertA (d : List (Int × Nat)) (k : Int) (v : Nat)
    (kv : Int × Nat) (h : kv ∈ dictInsertA d k v) :
    kv = (k, v) ∨ kv ∈ d := by
  induction d with
  | nil => simpa [dictInsertA] using h
  | cons kv0 t ih =>
      obtain ⟨k0, v0⟩ := kv0
      by_cases hk : k0 = k
      · subst hk
        simp only [dictInsertA, if_pos rfl] at h
        rcases List.mem_cons.1 h with h' | h'
        · exact Or.inl h'
        · exact Or.inr (List.mem_cons_of_mem _ h')
      · simp only [dictInsertA, if_neg hk] at h
        rcases List.mem_cons.1 h with h' | h'
        · exact Or.inr (h' ▸ List.mem_cons_self _ _)
        · rcases ih h' with h'' | h''
          · exact Or.inl h''
          · exact Or.inr (List.mem_cons_of_mem _ h'')

theorem copy_fold_inv (orig : List Nat) (st : Heap × List (Int × Nat)) :
    (∃ ext, (orig.foldl ReportMergerH.copyStep st).1 = st.1 ++ ext) ∧
    (∀ kv ∈ (orig.foldl ReportMergerH.copyStep st).2,
      kv ∈ st.2 ∨ st.1.length ≤ kv.2) := by
  induction orig generalizing st with
  | nil => exact ⟨⟨[], by simp⟩, fun kv hkv => Or.inl hkv⟩
  | cons a t ih =>
      obtain ⟨⟨ext, hext⟩, hmem⟩ := ih (ReportMergerH.copyStep st a)
      have hstep1 : (ReportMergerH.copyStep st a).1 = st.1 ++
          [heapRead st.1 a] := rfl
      refine ⟨⟨[heapRead st.1 a] ++ ext, ?_⟩, ?_⟩
      · simpa [hstep1, List.append_assoc] using hext
      · intro kv hkv
        rcases hmem kv hkv with h' | h'
        · rcases mem_dictInsertA _ _ _ _ h' with h'' | h''
          · right
            rw [h'']
            simp [heapAlloc]
          · exact Or.inl h''
        · right
          calc st.1.length ≤ (ReportMergerH.copyStep st a).1.length := by
                simp [hstep1]
            _ ≤ kv.2 := h'

theorem mergeH_fold_inv (h0 : Heap) (idx : List (Int × Nat))
    (add : List Rcd) (st : Heap × List (Int × Nat)) :
    (∃ ext, (add.foldl (ReportMergerH.mergeStepH h0 idx) st).1 =
      st.1 ++ ext) ∧
    (∀ kv ∈ (add.foldl (ReportMergerH.mergeStepH h0 idx) st).2,
      kv ∈ st.2 ∨ st.1.length ≤ kv.2) := by
  induction add generalizing st with
  | nil => exact ⟨⟨[], by simp⟩, fun kv hkv => Or.inl hkv⟩
  | cons item t ih =>
      obtain ⟨⟨ext, hext⟩, hmem⟩ := ih (ReportMergerH.mergeStepH h0 idx st item)
      have hstep : (∃ e, (ReportMergerH.mergeStepH h0 idx st item).1 =
          st.1 ++ e) ∧
          (∀ kv ∈ (ReportMergerH.mergeStepH h0 idx st item).2,
            kv ∈ st.2 ∨ st.1.length ≤ kv.2) := by
        unfold ReportMergerH.mergeStepH
        cases dictFindA? idx item.id with
        | none =>
            refine ⟨⟨[item], rfl⟩, ?_⟩
            intro kv hkv
            rcases mem_dictInsertA _ _ _ _ hkv with h' | h'
            · right; rw [h']; simp [heapAlloc]
            · exact Or.inl h'
        | some aOrig =>
            by_cases he : item = heapRead h0 aOrig
            · simp only [if_pos he]
              exact ⟨⟨[], by simp⟩, fun kv hkv => Or.inl hkv⟩
            · simp only [if_neg he]
              refine ⟨⟨[item], rfl⟩, ?_⟩
              intro kv hkv
              rcases mem_dictInsertA _ _ _ _ hkv with h' | h'
              · right; rw [h']; simp [heapAlloc]
              · exact Or.inl h'
      obtain ⟨⟨e, he⟩, hstepmem⟩ := hstep
      refine ⟨⟨e ++ ext, ?_⟩, ?_⟩
      · rw [List.foldl_cons, hext, he, List.append_assoc]
      · intro kv hkv
        rcases hmem kv hkv with h' | h'
        · rcases hstepmem kv h' with h'' | h''
          · exact Or.inl h''
          · exact Or.inr h''
        · right
          calc st.1.length ≤ (ReportMergerH.mergeStepH h0 idx st item).1.length := by
                rw [he]; simp
            _ ≤ kv.2 := h'

/-- C10: `ReportMerger.merge` never mutates its `original` argument.  In
the store-passing embedding: the final heap extends the initial one, so
every cell that existed before the call — in particular every dict of
`original` — still holds its old value afterwards; and every address in
the returned merged list is freshly allocated (original entries are
carried forward as deep copies), so the result shares no dict cell with
`original`. -/
theorem c10_merge_no_mutation (h : Heap) (additional : List Rcd)
    (original : List Nat) (hvalid : ∀ a ∈ original, a < h.length) :
    (∀ a, a < h.length →
      heapRead (ReportMergerH.mergeH h additional original).1 a =
        heapRead h a) ∧
    (∀ a ∈ original,
      heapRead (ReportMergerH.mergeH h additional original).1 a =
        heapRead h a) ∧
    (∀ b ∈ (ReportMergerH.mergeH h additional original).2,
      ∀ a ∈ original, b ≠ a) := by
  obtain ⟨⟨ext₁, hext₁⟩, hmem₁⟩ :=
    copy_fold_inv original (h, [])
  obtain ⟨⟨ext₂, hext₂⟩, hmem₂⟩ :=
    mergeH_fold_inv h (ReportMergerH.make_index_alias h original)
      additional (ReportMergerH.make_index_copy h original)
  have hheap : (ReportMergerH.mergeH h additional original).1 =
      h ++ (ext₁ ++ ext₂) := by
    show (additional.foldl
      (ReportMergerH.mergeStepH h
        (ReportMergerH.make_index_alias h original))
      (ReportMergerH.make_index_copy h original)).1 = h ++ (ext₁ ++ ext₂)
    rw [hext₂]
    show (ReportMergerH.make_index_copy h original).1 ++ ext₂ = _
    rw [ReportMergerH.make_index_copy, hext₁]
    simp
  have hfresh : ∀ b ∈ (ReportMergerH.mergeH h additional original).2,
      h.length ≤ b := by
    intro b hb
    have hb' : b ∈ (additional.foldl
        (ReportMergerH.mergeStepH h
          (ReportMergerH.make_index_alias h original))
        (ReportMergerH.make_index_copy h original)).2.map Prod.snd := by
      exact (List.perm_insertionSort _ _).mem_iff.1 hb
    obtain ⟨kv, hkv, hkvb⟩ := List.mem_map.1 hb'
    subst hkvb
    rcases hmem₂ kv hkv with h' | h'
    · rcases hmem₁ kv h' with h'' | h''
      · cases h''
      · simpa using h''
    · calc h.length ≤ (ReportMergerH.make_index_copy h original).1.length :=
          by rw [ReportMergerH.make_index_copy, hext₁]; simp
        _ ≤ kv.2 := h'
  have hframe : ∀ a, a < h.length →
      heapRead (ReportMergerH.mergeH h additional original).1 a =
        heapRead h a := by
    intro a ha
    rw [hheap, heapRead, heapRead, List.getD_append _ _ _ _ ha]
  refine ⟨hframe, fun a ha => hframe a (hvalid a ha), ?_⟩
  intro b hb a ha
  have := hfresh b hb
  have := hvalid a ha
  omega

/-- Witness for C10, at a one-cell heap holding one original dict and one
deeply-unequal additional record. -/
theorem c10_merge_no_mutation_witness :
    (∀ a ∈ [0],
      heapRead (ReportMergerH.mergeH [⟨1, none, [("v", "a")]⟩]
        [⟨1, none, [("v", "b")]⟩] [0]).1 a =
        heapRead [⟨1, none, [("v", "a")]⟩] a) ∧
    (∀ b ∈ (ReportMergerH.mergeH [⟨1, none, [("v", "a")]⟩]
        [⟨1, none, [("v", "b")]⟩] [0]).2, ∀ a ∈ [0], b ≠ a) := by
  have h := c10_merge_no_mutation [⟨1, none, [("v", "a")]⟩]
    [⟨1, none, [("v", "b")]⟩] [0] (by decide)
  exact ⟨h.2.1, h.2.2⟩

/-! Embedding of the quest-identity resolver (`chalicelib/freequest.py`).
`Detector.get_quest_id` synthesizes event-quest IDs with
`urlsafe_b64encode(md5(key.encode('utf-8')).digest())[:12]`; MD5, UTF-8
encoding and URL-safe base64 are embedded below over byte lists (`Nat`
values < 256), with 32-bit arithmetic written as `Nat` modulo `2^32`. -/

def w32 (n : Nat) : Nat := n % 4294967296

/-- Left rotation of a 32-bit word. -/
def rotl32 (x s : Nat) : Nat := w32 (x * 2 ^ s) + x / 2 ^ (32 - s)

def md5K : List Nat := [
  3614090360, 3905402710, 606105819, 3250441966,
  4118548399, 1200080426, 2821735955, 4249261313,
  1770035416, 2336552879, 4294925233, 2304563134,
  1804603682, 4254626195, 2792965006, 1236535329,
  4129170786, 3225465664, 643717713, 3921069994,
  3593408605, 38016083, 3634488961, 3889429448,
  568446438, 3275163606, 4107603335, 1163531501,
  2850285829, 4243563512, 1735328473, 2368359562,
  4294588738, 2272392833, 1839030562, 4259657740,
  2763975236, 1272893353, 4139469664, 3200236656,
  681279174, 3936430074, 3572445317, 76029189,
  3654602809, 3873151461, 530742520, 3299628645,
  4096336452, 1126891415, 2878612391, 4237533241,
  1700485571, 2399980690, 4293915773, 2240044497,
  1873313359, 4264355552, 2734768916, 1309151649,
  4149444226, 3174756917, 718787259, 3951481745]

def md5S : List Nat := [
  7, 12, 17, 22, 7, 12, 17, 22, 7, 12, 17, 22, 7, 12, 17, 22,
  5, 9, 14, 20, 5, 9, 14, 20, 5, 9, 14, 20, 5, 9, 14, 20,
  4, 11, 16, 23, 4, 11, 16, 23, 4, 11, 16, 23, 4, 11, 16, 23,
  6, 10, 15, 21, 6, 10, 15, 21, 6, 10, 15, 21, 6, 10, 15, 21]

/-- The sixteen little-endian 32-bit words of one 64-byte chunk. -/
def md5Words (chunk : List Nat) : List Nat :=
  (List.range 16).map (fun j =>
    chunk.getD (4 * j) 0 + 256 * chunk.getD (4 * j + 1) 0 +
      65536 * chunk.getD (4 * j + 2) 0 +
      16777216 * chunk.getD (4 * j + 3) 0)

def md5Round (m : List Nat) (st : Nat × Nat × Nat × Nat) (i : Nat) :
    Nat × Nat × Nat × Nat :=
  let a := st.1
  let b := st.2.1
  let c := st.2.2.1
  let d := st.2.2.2
  let fg : Nat × Nat :=
    if i < 16 then ((b &&& c) ||| ((4294967295 - b) &&& d), i)
    else if i < 32 then
      ((d &&& b) ||| ((4294967295 - d) &&& c), (5 * i + 1) % 16)
    else if i < 48 then (b ^^^ c ^^^ d, (3 * i + 5) % 16)
    else (c ^^^ (b ||| (4294967295 - d)), (7 * i) % 16)
  let f := w32 (fg.1 + a + md5K.getD i 0 + m.getD fg.2 0)
  (d, w32 (b + rotl32 f (md5S.getD i 0)), b, c)

def md5Chunk (st : Nat × Nat × Nat × Nat) (chunk : List Nat) :
    Nat × Nat × Nat × Nat :=
  let m := md5Words chunk
  let r := (List.range 64).foldl (md5Round m) st
  (w32 (st.1 + r.1), w32 (st.2.1 + r.2.1),
   w32 (st.2.2.1 + r.2.2.1), w32 (st.2.2.2 + r.2.2.2))

/-- MD5 padding: a `0x80` byte, zeros to 56 mod 64, then the bit length
as eight little-endian bytes. -/
def md5Pad (msg : List Nat) : List Nat :=
  msg ++ [128] ++ List.replicate ((119 - msg.length % 64) % 64) 0 ++
    (List.range 8).map (fun j => 8 * msg.length / 256 ^ j % 256)

def toChunksGo : Nat → List Nat → List (List Nat)
  | 0, _ => []
  | _, [] => []
  | fuel + 1, x :: rest =>
      (x :: rest).take 64 :: toChunksGo fuel ((x :: rest).drop 64)

def toChunks (l : List Nat) : List (List Nat) := toChunksGo l.length l

def wordLEBytes (x : Nat) : List Nat :=
  [x % 256, x / 256 % 256, x / 65536 % 256, x / 16777216 % 256]

/-- The 16-byte MD5 digest of a byte string. -/
def md5Bytes (msg : List Nat) : List Nat :=
  let r := (toChunks (md5Pad msg)).foldl md5Chunk
    (1732584193, 4023233417, 2562383102, 271733878)
  wordLEBytes r.1 ++ wordLEBytes r.2.1 ++ wordLEBytes r.2.2.1 ++
    wordLEBytes r.2.2.2

/-- UTF-8 encoding of one code point. -/
def utf8Char (c : Char) : List Nat :=
  let n := c.toNat
  if n < 128 then [n]
  else if n < 2048 then [192 + n / 64, 128 + n % 64]
  else if n < 65536 then
    [224 + n / 4096, 128 + n / 64 % 64, 128 + n % 64]
  else
    [240 + n / 262144, 128 + n / 4096 % 64, 128 + n / 64 % 64,
     128 + n % 64]

def utf8Bytes (s : String) : List Nat :=
  s.data.foldr (fun c acc => utf8Char c ++ acc) []

/-- The URL-safe base64 alphabet (`+`→`-`, `/`→`_`). -/
def b64Alphabet : List Char :=
  "ABCDEFGHIJKLMNOPQRSTUVWXYZabcdefghijklmnopqrstuvwxyz0123456789-_".data

def b64Char (n : Nat) : Char := b64Alphabet.getD n 'A'

def b64Go : Nat → List Nat → List Char
  | 0, _ => []
  | _, [] => []
  | _ + 1, [b0] =>
      [b64Char (b0 / 4), b64Char (b0 % 4 * 16), '=', '=']
  | _ + 1, [b0, b1] =>
      [b64Char (b0 / 4), b64Char (b0 % 4 * 16 + b1 / 16),
       b64Char (b1 % 16 * 4), '=']
  | fuel + 1, b0 :: b1 :: b2 :: rest =>
      b64Char (b0 / 4) :: b64Char (b0 % 4 * 16 + b1 / 16) ::
        b64Char (b1 % 16 * 4 + b2 / 64) :: b64Char (b2 % 64) ::
        b64Go fuel rest

/-- Embeds `base64.urlsafe_b64encode` (on byte values < 256). -/
def urlsafeB64encode (bytes : List Nat) : List Char :=
  b64Go (bytes.length + 1) bytes

/-- The synthetic event-quest ID:
`urlsafe_b64encode(md5("chapter\tplace\tyear".encode('utf-8')))[:12]`. -/
def synthQuestId (chapter place : String) (year : Nat) : String :=
  ⟨(urlsafeB64encode (md5Bytes (utf8Bytes
    (chapter ++ "\t" ++ place ++ "\t" ++ toString year)))).take 12⟩

/-- String-keyed Python dict insertion (`d[k] = v`). -/
def sdictInsert (d : List (String × String)) (k v : String) :
    List (String × String) :=
  match d with
  | [] => [(k, v)]
  | (k', v') :: t =>
      if k' = k then (k, v) :: t else (k', v') :: sdictInsert t k v

/-- String-keyed dict lookup (`d[k]` / `k in d`). -/
def sdictFind? (d : List (String × String)) (k : String) : Option String :=
  (d.find? (fun kv => kv.1 = k)).map (fun kv => kv.2)

theorem sdictFind?_cons (k0 v0 : String) (t : List (String × String))
    (k : String) :
    sdictFind? ((k0, v0) :: t) k =
      if k0 = k then some v0 else sdictFind? t k := by
  by_cases h : k0 = k <;> simp [sdictFind?, List.find?_cons, h]

theorem sdictFind?_sdictInsert (d : List (String × String)) (k v k' : String) :
    sdictFind? (sdictInsert d k v) k' =
      if k' = k then some v else sdictFind? d k' := by
  induction d with
  | nil =>
      by_cases h : k' = k
      · simp [sdictInsert, sdictFind?_cons, h]
      · simp [sdictInsert, sdictFind?_cons, h, Ne.symm h, sdictFind?]
  | cons kv t ih =>
      obtain ⟨k0, v0⟩ := kv
      by_cases hk : k0 = k
      · subst hk
        by_cases h : k' = k0
        · simp [sdictInsert, sdictFind?_cons, h]
        · simp [sdictInsert, sdictFind?_cons, h, Ne.symm h]
      · by_cases h : k' = k0
        · subst h
          simp [sdictInsert, sdictFind?_cons, Ne.symm hk, hk]
        · simp [sdictInsert, hk, sdictFind?_cons, h, Ne.symm h, ih]

/-- Embeds the state of `freequest.Detector`: the multi-keyed free-quest
index (keys `"chapter\tplace"`, `"place\t"`, ... as built by `_build_db`),
the chapter set, the place index, the per-instance event-quest cache, the
reverse ID-to-name index, and the string-similarity function that models
`difflib.SequenceMatcher(...).ratio()` used by `find_freequest`. -/
structure Detector where
  freequest_db : List (String × String)
  freequest_chapter_db : List String
  freequest_place_index : List (String × String)
  eventquest_cache : List (String × String)
  quest_reverse_index : List (String × String)
  similarity : String → String → Rat

namespace Detector

/-- Embeds `Detector.is_freequest`. -/
def is_freequest (st : Detector) (chapter place : String) : Bool :=
  (sdictFind? st.freequest_db (chapter ++ "\t" ++ place)).isSome ||
    (sdictFind? st.freequest_db (place ++ "\t")).isSome

/-- Embeds `Detector.get_quest_id`: a static-catalog hit returns the
static ID, a cache hit the cached ID; otherwise the synthetic ID is
computed, cached, and its display name recorded in the reverse index. -/
def get_quest_id (st : Detector) (chapter place : String) (year : Nat) :
    String × Detector :=
  let key_for_freequest_1st := chapter ++ "\t" ++ place
  let key_for_freequest_2nd := place ++ "\t"
  let key_for_eventquest :=
    chapter ++ "\t" ++ place ++ "\t" ++ toString year
  match sdictFind? st.freequest_db key_for_freequest_1st with
  | some qid => (qid, st)
  | none =>
    match sdictFind? st.freequest_db key_for_freequest_2nd with
    | some qid => (qid, st)
    | none =>
      match sdictFind? st.eventquest_cache key_for_eventquest with
      | some qid => (qid, st)
      | none =>
        let qid := synthQuestId chapter place year
        (qid,
         { st with
            eventquest_cache :=
              sdictInsert st.eventquest_cache key_for_eventquest qid,
            quest_reverse_index :=
              sdictInsert st.quest_reverse_index qid
                ("[" ++ toString year ++ "] " ++ chapter ++ " " ++ place) })

/-- Embeds `Detector.get_quest_name` (`none` models the `KeyError`). -/
def get_quest_name (st : Detector) (qid : String) : Option String :=
  sdictFind? st.quest_reverse_index qid

end Detector

set_option maxRecDepth 10000 in
/-- C3: for a (chapter, place) pair with no static-catalog key and no
cache entry for this (chapter, place, year), `get_quest_id` returns the
deterministic synthetic ID `synthQuestId` (URL-safe base64 of the MD5 of
the UTF-8 bytes of `"chapter\tplace\tyear"`, truncated to 12 characters) —
a pure function of the inputs, hence identical across calls and across
distinct resolver instances; a second call on the same instance hits the
cache and returns the same ID without changing the state; and the reverse
index then resolves the ID to `"[year] chapter place"`.  The final
conjunct pins the hash pipeline to the repository's own test vector. -/
theorem c3_synthetic_quest_id (det : Detector) (chapter place : String)
    (year : Nat)
    (h1 : sdictFind? det.freequest_db (chapter ++ "\t" ++ place) = none)
    (h2 : sdictFind? det.freequest_db (place ++ "\t") = none)
    (h3 : sdictFind? det.eventquest_cache
      (chapter ++ "\t" ++ place ++ "\t" ++ toString year) = none) :
    (Detector.get_quest_id det chapter place year).1 =
      synthQuestId chapter place year ∧
    (Detector.get_quest_id (Detector.get_quest_id det chapter place year).2
      chapter place year).1 = synthQuestId chapter place year ∧
    (Detector.get_quest_id (Detector.get_quest_id det chapter place year).2
      chapter place year).2 =
      (Detector.get_quest_id det chapter place year).2 ∧
    Detector.get_quest_name
      (Detector.get_quest_id det chapter place year).2
      (synthQuestId chapter place year) =
      some ("[" ++ toString year ++ "] " ++ chapter ++ " " ++ place) ∧
    synthQuestId "自動防衛装置・ハント" "典位+級" 2020 = "hc80ypM4YIKh" := by
  have hfirst : Detector.get_quest_id det chapter place year =
      (synthQuestId chapter place year,
       { det with
          eventquest_cache := sdictInsert det.eventquest_cache
            (chapter ++ "\t" ++ place ++ "\t" ++ toString year)
            (synthQuestId chapter place year),
          quest_reverse_index := sdictInsert det.quest_reverse_index
            (synthQuestId chapter place year)
            ("[" ++ toString year ++ "] " ++ chapter ++ " " ++ place) }) := by
    simp only [Detector.get_quest_id, h1, h2, h3]
  refine ⟨by rw [hfirst], ?_, ?_, ?_, by decide⟩
  · rw [hfirst]
    simp only [Detector.get_quest_id, h1, h2, sdictFind?_sdictInsert]
    simp
  · rw [hfirst]
    simp only [Detector.get_quest_id, h1, h2, sdictFind?_sdictInsert]
    simp
  · rw [hfirst]
    simp only [Detector.get_quest_name, sdictFind?_sdictInsert]
    simp

/-- Witness for C3: a fresh detector (empty catalog and cache) at the
repository's own test inputs. -/
theorem c3_synthetic_quest_id_witness :
    (Detector.get_quest_id ⟨[], [], [], [], [], fun _ _ => 0⟩
      "自動防衛装置・ハント" "典位+級" 2020).1 = "hc80ypM4YIKh" := by
  have h := c3_synthetic_quest_id ⟨[], [], [], [], [], fun _ _ => 0⟩
    "自動防衛装置・ハント" "典位+級" 2020 rfl rfl rfl
  exact h.1.trans h.2.2.2.2

/-! Embedding of the static-catalog construction (`_build_db` and friends
in `chalicelib/freequest.py`). -/

/-- One static catalog row. -/
structure FQEntry where
  id : String
  chapter : String
  place : String
  quest : String
deriving DecidableEq, Repr

/-- The `quests_in_same_place` table: groups of quests sharing one
(chapter, place). -/
def quests_in_same_place : List (String × String × String) := [
  ("オケアノス", "群島", "静かな入り江"),
  ("オケアノス", "群島", "隠された島"),
  ("下総国", "裏山", "名もなき霊峰"),
  ("下総国", "裏山", "戦戦恐恐"),
  ("オーディール・コール", "ハワイエリア", "常夏の休暇"),
  ("オーディール・コール", "ハワイエリア", "常夏即売会場"),
  ("オーディール・コール", "北大西洋エリア", "光糸導く迷宮"),
  ("オーディール・コール", "北大西洋エリア", "久遠の微笑"),
  ("オーディール・コール", "アラビアエリア", "賞金稼ぎに幾光年"),
  ("オーディール・コール", "アラビアエリア", "月光採掘場"),
  ("イド", "学校", "しずかな放課後"),
  ("イド", "学校", "ななふしぎ調査"),
  ("イド", "学校", "とつぜんの呼び出し"),
  ("イド", "学校", "いのこり特訓"),
  ("イド", "西新宿", "であいの交差点"),
  ("イド", "西新宿", "たたずむ摩天楼")]

def prior_in_same_place : List String := [
  "静かな入り江", "名もなき霊峰", "常夏の休暇", "光糸導く迷宮",
  "賞金稼ぎに幾光年", "しずかな放課後", "であいの交差点"]

def posterior_in_same_place : List String := [
  "隠された島", "戦戦恐恐", "常夏即売会場", "久遠の微笑", "月光採掘場",
  "ななふしぎ調査", "とつぜんの呼び出し", "いのこり特訓", "たたずむ摩天楼"]

def ambigious_place : List String := [
  "剣の修練場", "弓の修練場", "槍の修練場", "騎の修練場", "術の修練場",
  "殺の修練場", "狂の修練場", "初級", "中級", "上級", "超級", "極級",
  "不夜城", "新宿御苑"]

def ambigious_quest : List String := ["不夜城"]

/-- The alias of a name with the `・` mark stripped
(`place.replace('・', '') if '・' in place else ''`). -/
def altName (s : String) : String :=
  if s.data.contains '・' then ⟨s.data.filter (fun c => c ≠ '・')⟩ else ""

/-- The bare chapter-place key `"chapter\tplace"`. -/
def keyCP (fq : FQEntry) : String := fq.chapter ++ "\t" ++ fq.place

/-- The bare place key `"place\t"`. -/
def keyP (fq : FQEntry) : String := fq.place ++ "\t"

/-- In source order, the unchecked quest-name keys one entry registers
(the `if quest:` block of `_build_db`, a straight-line sequence of
`d[...] = qid` assignments). -/
def questKeys (fq : FQEntry) : List String :=
  if fq.quest = "" then []
  else
    [fq.chapter ++ "\t" ++ fq.quest] ++
    (if altName fq.quest ≠ "" then
      [fq.chapter ++ "\t" ++ altName fq.quest] else []) ++
    [fq.chapter ++ " " ++ fq.place ++ "\t" ++ fq.quest] ++
    (if altName fq.place ≠ "" then
      [fq.chapter ++ " " ++ altName fq.place ++ "\t" ++ fq.quest] ++
      (if altName fq.quest ≠ "" then
        [fq.chapter ++ " " ++ altName fq.place ++ "\t" ++ altName fq.quest]
       else [])
     else []) ++
    [fq.place ++ "\t" ++ fq.quest] ++
    (if altName fq.place ≠ "" then
      [altName fq.place ++ "\t" ++ fq.quest] ++
      (if altName fq.quest ≠ "" then
        [altName fq.place ++ "\t" ++ altName fq.quest] else [])
     else []) ++
    (if fq.quest ∉ ambigious_quest then
      [fq.quest ++ "\t"] ++
      (if altName fq.quest ≠ "" then [altName fq.quest ++ "\t"] else [])
     else [])

def registerQuestKeys (d : List (String × String)) (fq : FQEntry) :
    List (String × String) :=
  (questKeys fq).foldl (fun d k => sdictInsert d k fq.id) d

/-- The bare chapter-place insertions (`d[f'{chapter}\t{place}'] = qid`
and its `alt_place` alias). -/
def bareCPInserted (d : List (String × String)) (fq : FQEntry) :
    List (String × String) :=
  if altName fq.place ≠ "" then
    sdictInsert (sdictInsert d (keyCP fq) fq.id)
      (fq.chapter ++ "\t" ++ altName fq.place) fq.id
  else sdictInsert d (keyCP fq) fq.id

/-- The bare place insertions (`d[f'{place}\t'] = qid` and its
`alt_place` alias). -/
def barePInserted (d : List (String × String)) (fq : FQEntry) :
    List (String × String) :=
  if altName fq.place ≠ "" then
    sdictInsert (sdictInsert d (keyP fq) fq.id)
      (altName fq.place ++ "\t") fq.id
  else sdictInsert d (keyP fq) fq.id

/-- The place-only tail of the checked bare-key block. -/
def barePlacePart (d : List (String × String)) (fq : FQEntry) :
    Except String (List (String × String)) :=
  if fq.place ∉ ambigious_place then
    if (sdictFind? (bareCPInserted d fq) (keyP fq)).isSome then
      .error ("key " ++ fq.place ++ "<tab> has already been registered")
    else .ok (barePInserted (bareCPInserted d fq) fq)
  else .ok (bareCPInserted d fq)

/-- The checked bare-key block of `_build_db`: skipped entirely when
`place == quest` or when the entry is a non-prior member of a declared
same-place group; raises (`KeyError`) when a bare key is already
registered. -/
def registerBareKeys (d : List (String × String)) (fq : FQEntry) :
    Except String (List (String × String)) :=
  if fq.place = fq.quest then .ok d
  else
    if (fq.chapter, fq.place, fq.quest) ∉ quests_in_same_place ∨
        fq.quest ∈ prior_in_same_place then
      if (sdictFind? d (keyCP fq)).isSome then
        .error ("key " ++ fq.chapter ++ "<tab>" ++ fq.place ++
          " has already been registered")
      else barePlacePart d fq
    else .ok d

def processEntry (d : List (String × String)) (fq : FQEntry) :
    Except String (List (String × String)) :=
  registerBareKeys (registerQuestKeys d fq) fq

def build_db_go (d : List (String × String)) (fqs : List FQEntry) :
    Except String (List (String × String)) :=
  match fqs with
  | [] => .ok d
  | fq :: rest =>
      match processEntry d fq with
      | .error e => .error e
      | .ok d' => build_db_go d' rest

/-- Embeds `_build_db`: the per-entry loop, then the two fixed aliases
for the run-counter spellings (a missing base key is a `KeyError`). -/
def build_db (freequests : List FQEntry) :
    Except String (List (String × String)) :=
  match build_db_go [] freequests with
  | .error e => .error e
  | .ok d =>
      match sdictFind? d ("オルレアン\tティエール") with
      | none => .error "KeyError: オルレアン\tティエール"
      | some v1 =>
          let d := sdictInsert d "オルレアン\tティエール(刃物の町)" v1
          match sdictFind? d ("セプテム\tゲルマニア") with
          | none => .error "KeyError: セプテム\tゲルマニア"
          | some v2 =>
              .ok (sdictInsert d "セプテム\tゲルマニア(黒い森)" v2)

/-- Embeds `_build_chapter_db` (the set is kept in insertion order). -/
def build_chapter_db_go (s : List String) (fqs : List FQEntry) :
    Except String (List String) :=
  match fqs with
  | [] => .ok s
  | fq :: rest =>
      let s := if fq.chapter ∈ s then s else s ++ [fq.chapter]
      if fq.chapter = "北米" then
        if fq.place ∈ s then
          .error ("key " ++ fq.place ++ " has already been registered")
        else build_chapter_db_go (s ++ [fq.place]) rest
      else build_chapter_db_go s rest

/-- Embeds `_build_place_index`: only quests with a place that are not
posterior members of a same-place group. -/
def build_place_index (fqs : List FQEntry) : List (String × String) :=
  fqs.foldl (fun d fq =>
    if fq.place ≠ "" ∧ fq.quest ∉ posterior_in_same_place then
      sdictInsert d fq.place fq.id
    else d) []

/-- Embeds `_build_reverse_index`. -/
def build_reverse_index (fqs : List FQEntry) : List (String × String) :=
  fqs.foldl (fun d fq =>
    sdictInsert d fq.id
      (fq.chapter ++ " " ++ fq.place ++ " " ++ fq.quest)) []

/-- Embeds the `Detector` constructor (`__init__`), with a fresh
event-quest cache. -/
def mkDetector (fqs : List FQEntry) (sim : String → String → Rat) :
    Except String Detector :=
  match build_db fqs with
  | .error e => .error e
  | .ok db =>
      match build_chapter_db_go [] fqs with
      | .error e => .error e
      | .ok chdb =>
          .ok ⟨db, chdb, build_place_index fqs, [],
            build_reverse_index fqs, sim⟩

/-- True exactly on `Except.error` values. -/
def exceptErr {α : Type} : Except String α → Bool
  | .error _ => true
  | .ok _ => false

/-- A concrete catalog fragment containing the declared same-location
group (オケアノス/群島: prior 静かな入り江 `10d10`, posterior 隠された島
`10d11`; the IDs are the ones in the repository's tests) plus the two
rows the fixed run-counter aliases of `_build_db` require. -/
def okeanosCatalog : List FQEntry := [
  ⟨"10b07", "オルレアン", "ティエール", ""⟩,
  ⟨"10c06", "セプテム", "ゲルマニア", ""⟩,
  ⟨"10d10", "オケアノス", "群島", "静かな入り江"⟩,
  ⟨"10d11", "オケアノス", "群島", "隠された島"⟩]

def okeanosDetector : Detector :=
  match mkDetector okeanosCatalog (fun _ _ => 0) with
  | .ok det => det
  | .error _ => ⟨[], [], [], [], [], fun _ _ => 0⟩

/-- C6: on a catalog with a declared same-location group, the bare
(chapter, place) key resolves to the prior quest's static ID, while
naming the posterior quest directly resolves to its own distinct static
ID; catalog construction succeeds. -/
theorem c6_same_place_prior_posterior :
    exceptErr (mkDetector okeanosCatalog (fun _ _ => 0)) = false ∧
    (okeanosDetector.get_quest_id "オケアノス" "群島" 2020).1 = "10d10" ∧
    (okeanosDetector.get_quest_id "オケアノス" "隠された島" 2020).1 =
      "10d11" ∧
    ("10d10" : String) ≠ "10d11" := by
  refine ⟨by decide, by decide, by decide, by decide⟩

/-- Entry reaches the bare chapter-place registration of `_build_db`:
place and quest differ and the entry is not a non-prior member of a
declared same-place group. -/
def registersBareCP (fq : FQEntry) : Prop :=
  fq.place ≠ fq.quest ∧
    ((fq.chapter, fq.place, fq.quest) ∉ quests_in_same_place ∨
      fq.quest ∈ prior_in_same_place)

instance (fq : FQEntry) : Decidable (registersBareCP fq) :=
  inferInstanceAs (Decidable (And _ _))

/-- Entry additionally reaches the bare place registration: its place is
not one of the declared ambiguous places. -/
def registersBareP (fq : FQEntry) : Prop :=
  registersBareCP fq ∧ fq.place ∉ ambigious_place

instance (fq : FQEntry) : Decidable (registersBareP fq) :=
  inferInstanceAs (Decidable (And _ _))

theorem sdictFind?_isSome_insert (d : List (String × String))
    (k0 v k : String) (h : (sdictFind? d k).isSome) :
    (sdictFind? (sdictInsert d k0 v) k).isSome := by
  rw [sdictFind?_sdictInsert]
  by_cases hk : k = k0 <;> simp [hk, h]

theorem sdictFind?_isSome_insert_self (d : List (String × String))
    (k v : String) : (sdictFind? (sdictInsert d k v) k).isSome := by
  rw [sdictFind?_sdictInsert]
  simp

theorem registerQuestKeys_mono (fq : FQEntry)
    (d : List (String × String)) (k : String)
    (h : (sdictFind? d k).isSome) :
    (sdictFind? (registerQuestKeys d fq) k).isSome := by
  rw [registerQuestKeys]
  induction questKeys fq generalizing d with
  | nil => exact h
  | cons k0 t ih =>
      simp only [List.foldl_cons]
      exact ih _ (sdictFind?_isSome_insert d k0 fq.id k h)

theorem bareCPInserted_mono (d : List (String × String)) (fq : FQEntry)
    (k : String) (h : (sdictFind? d k).isSome) :
    (sdictFind? (bareCPInserted d fq) k).isSome := by
  unfold bareCPInserted
  split
  · exact sdictFind?_isSome_insert _ _ _ _ (sdictFind?_isSome_insert _ _ _ _ h)
  · exact sdictFind?_isSome_insert _ _ _ _ h

theorem bareCPInserted_key (d : List (String × String)) (fq : FQEntry) :
    (sdictFind? (bareCPInserted d fq) (keyCP fq)).isSome := by
  unfold bareCPInserted
  split
  · exact sdictFind?_isSome_insert _ _ _ _
      (sdictFind?_isSome_insert_self _ _ _)
  · exact sdictFind?_isSome_insert_self _ _ _

theorem barePInserted_mono (d : List (String × String)) (fq : FQEntry)
    (k : String) (h : (sdictFind? d k).isSome) :
    (sdictFind? (barePInserted d fq) k).isSome := by
  unfold barePInserted
  split
  · exact sdictFind?_isSome_insert _ _ _ _ (sdictFind?_isSome_insert _ _ _ _ h)
  · exact sdictFind?_isSome_insert _ _ _ _ h

theorem barePInserted_key (d : List (String × String)) (fq : FQEntry) :
    (sdictFind? (barePInserted d fq) (keyP fq)).isSome := by
  unfold barePInserted
  split
  · exact sdictFind?_isSome_insert _ _ _ _
      (sdictFind?_isSome_insert_self _ _ _)
  · exact sdictFind?_isSome_insert_self _ _ _

theorem registerBareKeys_ok (fq : FQEntry) (d d' : List (String × String))
    (hok : registerBareKeys d fq = .ok d') :
    (∀ k, (sdictFind? d k).isSome → (sdictFind? d' k).isSome) ∧
    (registersBareCP fq → (sdictFind? d' (keyCP fq)).isSome) ∧
    (registersBareP fq → (sdictFind? d' (keyP fq)).isSome) := by
  unfold registerBareKeys at hok
  by_cases h1 : fq.place = fq.quest
  · rw [if_pos h1] at hok
    obtain rfl : d = d' := by cases hok; rfl
    exact ⟨fun k hk => hk, fun hcp => absurd h1 hcp.1,
      fun hp => absurd h1 hp.1.1⟩
  · rw [if_neg h1] at hok
    by_cases h2 : (fq.chapter, fq.place, fq.quest) ∉ quests_in_same_place ∨
        fq.quest ∈ prior_in_same_place
    · rw [if_pos h2] at hok
      by_cases h3 : (sdictFind? d (keyCP fq)).isSome
      · rw [if_pos h3] at hok
        cases hok
      · rw [if_neg h3] at hok
        unfold barePlacePart at hok
        by_cases h4 : fq.place ∉ ambigious_place
        · rw [if_pos h4] at hok
          by_cases h5 : (sdictFind? (bareCPInserted d fq) (keyP fq)).isSome
          · rw [if_pos h5] at hok
            cases hok
          · rw [if_neg h5] at hok
            obtain rfl : barePInserted (bareCPInserted d fq) fq = d' := by
              cases hok; rfl
            refine ⟨fun k hk =>
              barePInserted_mono _ _ _ (bareCPInserted_mono _ _ _ hk),
              fun _ => barePInserted_mono _ _ _ (bareCPInserted_key _ _),
              fun _ => barePInserted_key _ _⟩
        · rw [if_neg h4] at hok
          obtain rfl : bareCPInserted d fq = d' := by cases hok; rfl
          refine ⟨fun k hk => bareCPInserted_mono _ _ _ hk,
            fun _ => bareCPInserted_key _ _,
            fun hp => absurd hp.2 (fun hn => h4 hn)⟩
    · rw [if_neg h2] at hok
      obtain rfl : d = d' := by cases hok; rfl
      exact ⟨fun k hk => hk, fun hcp => absurd hcp.2 h2,
        fun hp => absurd hp.1.2 h2⟩

theorem registerBareKeys_err_cp (fq : FQEntry)
    (d : List (String × String)) (hcp : registersBareCP fq)
    (h : (sdictFind? d (keyCP fq)).isSome) :
    exceptErr (registerBareKeys d fq) = true := by
  unfold registerBareKeys
  rw [if_neg hcp.1, if_pos hcp.2, if_pos h]
  rfl

theorem registerBareKeys_err_p (fq : FQEntry)
    (d : List (String × String)) (hp : registersBareP fq)
    (h : (sdictFind? d (keyP fq)).isSome) :
    exceptErr (registerBareKeys d fq) = true := by
  unfold registerBareKeys
  rw [if_neg hp.1.1, if_pos hp.1.2]
  by_cases h3 : (sdictFind? d (keyCP fq)).isSome
  · rw [if_pos h3]
    rfl
  · rw [if_neg h3]
    unfold barePlacePart
    rw [if_pos hp.2, if_pos (bareCPInserted_mono d fq _ h)]
    rfl

theorem processEntry_ok (fq : FQEntry) (d d' : List (String × String))
    (hok : processEntry d fq = .ok d') :
    (∀ k, (sdictFind? d k).isSome → (sdictFind? d' k).isSome) ∧
    (registersBareCP fq → (sdictFind? d' (keyCP fq)).isSome) ∧
    (registersBareP fq → (sdictFind? d' (keyP fq)).isSome) := by
  obtain ⟨hmono, hcp, hp⟩ :=
    registerBareKeys_ok fq (registerQuestKeys d fq) d' hok
  exact ⟨fun k hk => hmono k (registerQuestKeys_mono fq d k hk), hcp, hp⟩

theorem processEntry_err_cp (fq : FQEntry) (d : List (String × String))
    (hcp : registersBareCP fq)
    (h : (sdictFind? d (keyCP fq)).isSome) :
    exceptErr (processEntry d fq) = true :=
  registerBareKeys_err_cp fq _ hcp (registerQuestKeys_mono fq d _ h)

theorem processEntry_err_p (fq : FQEntry) (d : List (String × String))
    (hp : registersBareP fq)
    (h : (sdictFind? d (keyP fq)).isSome) :
    exceptErr (processEntry d fq) = true :=
  registerBareKeys_err_p fq _ hp (registerQuestKeys_mono fq d _ h)

/-- A key that is already registered, and that some later entry will try
to register as its own bare key, makes the rest of the build fail. -/
theorem build_db_go_err_of_key (fqs : List FQEntry)
    (d : List (String × String)) (k : String)
    (hk : (sdictFind? d k).isSome)
    (hex : ∃ fq ∈ fqs, (registersBareCP fq ∧ k = keyCP fq) ∨
      (registersBareP fq ∧ k = keyP fq)) :
    exceptErr (build_db_go d fqs) = true := by
  induction fqs generalizing d with
  | nil => obtain ⟨fq, hmem, _⟩ := hex; cases hmem
  | cons fq rest ih =>
      obtain ⟨fq', hmem, hcol⟩ := hex
      rcases List.mem_cons.1 hmem with rfl | hmem'
      · have herr : exceptErr (processEntry d fq') = true := by
          rcases hcol with ⟨hcp, rfl⟩ | ⟨hp, rfl⟩
          · exact processEntry_err_cp fq' d hcp hk
          · exact processEntry_err_p fq' d hp hk
        unfold build_db_go
        cases hpe : processEntry d fq' with
        | error e => rfl
        | ok d' => rw [hpe] at herr; cases herr
      · unfold build_db_go
        cases hpe : processEntry d fq with
        | error e => rfl
        | ok d' =>
            exact ih d' ((processEntry_ok fq d d' hpe).1 k hk)
              ⟨fq', hmem', hcol⟩

theorem build_db_go_append (d : List (String × String))
    (l₁ l₂ : List FQEntry) :
    build_db_go d (l₁ ++ l₂) =
      match build_db_go d l₁ with
      | .error e => .error e
      | .ok d' => build_db_go d' l₂ := by
  induction l₁ generalizing d with
  | nil => simp [build_db_go]
  | cons fq rest ih =>
      show build_db_go d (fq :: (rest ++ l₂)) = _
      unfold build_db_go
      cases hpe : processEntry d fq with
      | error e => rfl
      | ok d' =>
          dsimp only
          rw [ih d']
          cases build_db_go d' rest with
          | error e => rfl
          | ok d'' =>
              dsimp only
              rw [build_db_go.eq_def]

theorem build_db_err_of_core (fqs : List FQEntry)
    (h : exceptErr (build_db_go [] fqs) = true) :
    exceptErr (build_db fqs) = true := by
  unfold build_db
  cases hc : build_db_go [] fqs with
  | error e => rfl
  | ok d => rw [hc] at h; cases h

/-- C7: catalog construction fails fast on data-entry collisions — if two
entries of the dataset both reach the bare chapter-place registration
with the same key, or both reach the bare place registration with the
same key (outside the declared same-location groups and ambiguous
places), `_build_db` raises at load time. -/
theorem c7_build_db_collision_raises (pre mid post : List FQEntry)
    (a b : FQEntry)
    (hcol : (registersBareCP a ∧ registersBareCP b ∧ keyCP a = keyCP b) ∨
      (registersBareP a ∧ registersBareP b ∧ keyP a = keyP b)) :
    exceptErr (build_db (pre ++ a :: mid ++ b :: post)) = true := by
  apply build_db_err_of_core
  rw [show pre ++ a :: mid ++ b :: post = pre ++ (a :: (mid ++ b :: post))
    from by simp]
  rw [build_db_go_append]
  cases hpre : build_db_go [] pre with
  | error e => rfl
  | ok d₀ =>
      show exceptErr (build_db_go d₀ (a :: (mid ++ b :: post))) = true
      unfold build_db_go
      cases hpa : processEntry d₀ a with
      | error e => rfl
      | ok d₁ =>
          rcases hcol with ⟨hcpa, hcpb, hkeq⟩ | ⟨hpa', hpb, hkeq⟩
          · exact build_db_go_err_of_key (mid ++ b :: post) d₁ (keyCP a)
              ((processEntry_ok a d₀ d₁ hpa).2.1 hcpa)
              ⟨b, by simp, Or.inl ⟨hcpb, hkeq⟩⟩
          · exact build_db_go_err_of_key (mid ++ b :: post) d₁ (keyP a)
              ((processEntry_ok a d₀ d₁ hpa).2.2 hpa')
              ⟨b, by simp, Or.inr ⟨hpb, hkeq⟩⟩

/-- Witness for C7: two distinct quests (not in any declared group) on the
same chapter and place; building the catalog raises. -/
theorem c7_build_db_collision_raises_witness :
    exceptErr (build_db [⟨"q1", "X", "P", ""⟩, ⟨"q2", "X", "P", ""⟩]) =
      true := by
  have h := c7_build_db_collision_raises [] [] []
    ⟨"q1", "X", "P", ""⟩ ⟨"q2", "X", "P", ""⟩
    (Or.inl ⟨by decide, by decide, rfl⟩)
  simpa using h

/-! Embedding of the stateful quest-list aggregation rule
(`QuestListElement.countup` / `PartitioningRuleByQuestList.dispatch`,
claim C8).  Timestamps are integers.  The Python constructor resolves the
display name through the default detector; the name plays no role in the
aggregation and is supplied by a resolver function `nameOf` here. -/

/-- Generic string-keyed Python dict insertion. -/
def adictInsert {α : Type} (d : List (String × α)) (k : String) (v : α) :
    List (String × α) :=
  match d with
  | [] => [(k, v)]
  | (k', v') :: t =>
      if k' = k then (k, v) :: t else (k', v') :: adictInsert t k v

/-- Generic string-keyed dict lookup. -/
def adictFind? {α : Type} (d : List (String × α)) (k : String) :
    Option α :=
  (d.find? (fun kv => kv.1 = k)).map (fun kv => kv.2)

theorem adictFind?_cons {α : Type} (k0 : String) (v0 : α)
    (t : List (String × α)) (k : String) :
    adictFind? ((k0, v0) :: t) k =
      if k0 = k then some v0 else adictFind? t k := by
  by_cases h : k0 = k <;> simp [adictFind?, List.find?_cons, h]

theorem adictFind?_adictInsert {α : Type} (d : List (String × α))
    (k : String) (v : α) (k' : String) :
    adictFind? (adictInsert d k v) k' =
      if k' = k then some v else adictFind? d k' := by
  induction d with
  | nil =>
      by_cases h : k' = k
      · simp [adictInsert, adictFind?_cons, h]
      · simp [adictInsert, adictFind?_cons, h, Ne.symm h, adictFind?]
  | cons kv t ih =>
      obtain ⟨k0, v0⟩ := kv
      by_cases hk : k0 = k
      · subst hk
        by_cases h : k' = k0
        · simp [adictInsert, adictFind?_cons, h]
        · simp [adictInsert, adictFind?_cons, h, Ne.symm h]
      · by_cases h : k' = k0
        · subst h
          simp [adictInsert, adictFind?_cons, Ne.symm hk, hk]
        · simp [adictInsert, hk, adictFind?_cons, h, Ne.symm h, ih]

/-- One quest-list aggregate element (`QuestListElement`). -/
structure QuestListElement where
  quest_id : String
  quest_name : String
  chapter : String
  place : String
  since : Int
  latest : Int
  is_freequest : Bool
  count : Nat
deriving DecidableEq, Repr

/-- The `QuestListElement` constructor: a fresh sighting, `count = 1`,
`since = latest = timestamp`. -/
def mkQuestListElement (nameOf : String → String)
    (quest_id chapter place : String) (timestamp : Int)
    (is_freequest : Bool) : QuestListElement :=
  ⟨quest_id, nameOf quest_id, chapter, place, timestamp, timestamp,
   is_freequest, 1⟩

/-- Embeds `QuestListElement.countup`: increment the count and advance
`latest` when the new timestamp is later. -/
def QuestListElement.countup (e : QuestListElement) (timestamp : Int) :
    QuestListElement :=
  { e with
      count := e.count + 1,
      latest := if timestamp > e.latest then timestamp else e.latest }

/-- The fields of a report that the quest-list rule reads. -/
structure QLReport where
  quest_id : String
  chapter : String
  place : String
  timestamp : Int
  is_freequest : Bool
deriving DecidableEq, Repr

/-- Embeds `PartitioningRuleByQuestList.dispatch`.  The state is the
`quest_dict`; the single `'all'` partition is the list of element ids
(the Python list holds references into `quest_dict`, so an id faithfully
stands for the shared element). -/
def questListDispatch (nameOf : String → String)
    (st : List (String × QuestListElement))
    (allPart : Option (List String)) (r : QLReport) :
    List (String × QuestListElement) × Option (List String) :=
  let e := mkQuestListElement nameOf r.quest_id r.chapter r.place
    r.timestamp r.is_freequest
  match adictFind? st e.quest_id with
  | none =>
      let st' := adictInsert st e.quest_id e
      match allPart with
      | none => (st', some (st'.map Prod.fst))
      | some ps => (st', some (ps ++ [e.quest_id]))
  | some existing_e =>
      let e₁ := if e.since < existing_e.since then
          { existing_e with since := e.since }
        else existing_e
      let e₂ := e₁.countup e.latest
      let st' := adictInsert st e.quest_id e₂
      match allPart with
      | none => (st', some (st'.map Prod.fst))
      | some ps => (st', some ps)

/-- A full dispatch pass. -/
def questListRun (nameOf : String → String)
    (st : List (String × QuestListElement) × Option (List String))
    (reports : List QLReport) :
    List (String × QuestListElement) × Option (List String) :=
  reports.foldl (fun st r => questListDispatch nameOf st.1 st.2 r) st

theorem questListDispatch_existing (nameOf : String → String)
    (st : List (String × QuestListElement)) (part : Option (List String))
    (r : QLReport) (e : QuestListElement)
    (hfind : adictFind? st r.quest_id = some e) :
    (questListDispatch nameOf st part r).1 =
      adictInsert st r.quest_id
        { e with
            since := if r.timestamp < e.since then r.timestamp else e.since,
            latest :=
              if r.timestamp > e.latest then r.timestamp else e.latest,
            count := e.count + 1 } := by
  simp only [questListDispatch, mkQuestListElement]
  rw [hfind]
  by_cases hs : r.timestamp < e.since
  · cases part <;>
      simp [QuestListElement.countup, hs]
  · cases part <;>
      simp [QuestListElement.countup, hs]

theorem questListDispatch_other (nameOf : String → String)
    (st : List (String × QuestListElement)) (part : Option (List String))
    (r : QLReport) (q : String) (hq : r.quest_id ≠ q) :
    adictFind? (questListDispatch nameOf st part r).1 q =
      adictFind? st q := by
  simp only [questListDispatch, mkQuestListElement]
  cases hfe : adictFind? st r.quest_id with
  | none =>
      cases part <;>
        simp [adictFind?_adictInsert, Ne.symm hq]
  | some e0 =>
      cases part <;>
        simp [adictFind?_adictInsert, Ne.symm hq]

theorem questListDispatch_mono (nameOf : String → String)
    (st : List (String × QuestListElement)) (part : Option (List String))
    (r : QLReport) (q : String) (e : QuestListElement)
    (hfind : adictFind? st q = some e) :
    ∃ e', adictFind? (questListDispatch nameOf st part r).1 q = some e' ∧
      e'.since ≤ e.since ∧ e.latest ≤ e'.latest ∧ e.count ≤ e'.count := by
  by_cases hq : r.quest_id = q
  · subst hq
    rw [questListDispatch_existing nameOf st part r e hfind,
      adictFind?_adictInsert]
    simp only [if_pos rfl]
    refine ⟨_, rfl, ?_, ?_, ?_⟩ <;> simp <;> split <;> omega
  · exact ⟨e, (questListDispatch_other nameOf st part r q hq).trans hfind,
      le_refl _, le_refl _, le_refl _⟩

theorem questListRun_mono (nameOf : String → String)
    (reports : List QLReport) :
    ∀ (st : List (String × QuestListElement)) (part : Option (List String))
      (q : String) (e : QuestListElement),
      adictFind? st q = some e →
      ∃ e', adictFind? (questListRun nameOf (st, part) reports).1 q =
          some e' ∧
        e'.since ≤ e.since ∧ e.latest ≤ e'.latest ∧ e.count ≤ e'.count := by
  induction reports with
  | nil => exact fun st part q e h => ⟨e, h, le_refl _, le_refl _, le_refl _⟩
  | cons r rest ih =>
      intro st part q e hfind
      obtain ⟨e₁, hfind₁, hs₁, hl₁, hc₁⟩ :=
        questListDispatch_mono nameOf st part r q e hfind
      obtain ⟨e₂, hfind₂, hs₂, hl₂, hc₂⟩ :=
        ih (questListDispatch nameOf st part r).1
          (questListDispatch nameOf st part r).2 q e₁ hfind₁
      exact ⟨e₂, hfind₂, le_trans hs₂ hs₁, le_trans hl₁ hl₂,
        le_trans hc₁ hc₂⟩

theorem questListRun_count (nameOf : String → String) (q ch pl : String)
    (fq : Bool) (ts : List Int) :
    ∀ (st : List (String × QuestListElement)) (part : Option (List String))
      (e : QuestListElement), adictFind? st q = some e →
      ∃ e', adictFind? (questListRun nameOf (st, part)
          (ts.map (fun t => ⟨q, ch, pl, t, fq⟩))).1 q = some e' ∧
        e'.count = e.count + ts.length ∧
        e'.since = ts.foldl min e.since ∧
        e'.latest = ts.foldl max e.latest := by
  induction ts with
  | nil => exact fun st part e h => ⟨e, h, by simp, by simp, by simp⟩
  | cons t rest ih =>
      intro st part e hfind
      have hstep := questListDispatch_existing nameOf st part
        ⟨q, ch, pl, t, fq⟩ e hfind
      set e₂ : QuestListElement :=
        { e with
            since := if t < e.since then t else e.since,
            latest := if t > e.latest then t else e.latest,
            count := e.count + 1 } with he₂
      have hfind₂ : adictFind?
          (questListDispatch nameOf st part ⟨q, ch, pl, t, fq⟩).1 q =
          some e₂ := by
        rw [hstep, adictFind?_adictInsert]
        simp
      obtain ⟨e', hfind', hc, hs, hl⟩ :=
        ih (questListDispatch nameOf st part ⟨q, ch, pl, t, fq⟩).1
          (questListDispatch nameOf st part ⟨q, ch, pl, t, fq⟩).2 e₂ hfind₂
      refine ⟨e', hfind', ?_, ?_, ?_⟩
      · rw [hc, he₂]
        simp [List.length_cons]
        omega
      · rw [hs, he₂]
        have : (if t < e.since then t else e.since) = min e.since t := by
          rcases lt_trichotomy t e.since with h | h | h <;>
            simp [h, min_def] <;> omega
        simp [this]
      · rw [hl, he₂]
        have : (if t > e.latest then t else e.latest) = max e.latest t := by
          rcases lt_trichotomy t e.latest with h | h | h <;>
            simp [h, max_def] <;> omega
        simp [this]

/-- C8: starting from the empty quest-list state, dispatching N reports
that all resolve to one quest ID leaves that quest's aggregate element
with `count = N`, `since` = the minimum of the N timestamps and `latest`
= their maximum; and over any dispatch sequence, an element's `since`
never moves later, its `latest` never moves earlier, and its `count`
never decreases. -/
theorem c8_quest_list_aggregate (nameOf : String → String)
    (q ch pl : String) (fq : Bool) (t₀ : Int) (ts : List Int) :
    (∃ e', adictFind? (questListRun nameOf ([], none)
        ((t₀ :: ts).map (fun t => ⟨q, ch, pl, t, fq⟩))).1 q = some e' ∧
      e'.count = ts.length + 1 ∧
      e'.since = ts.foldl min t₀ ∧
      e'.latest = ts.foldl max t₀) ∧
    (∀ (reports : List QLReport)
       (st : List (String × QuestListElement))
       (part : Option (List String)) (q' : String)
       (e : QuestListElement),
      adictFind? st q' = some e →
      ∃ e', adictFind? (questListRun nameOf (st, part) reports).1 q' =
          some e' ∧
        e'.since ≤ e.since ∧ e.latest ≤ e'.latest ∧ e.count ≤ e'.count) := by
  constructor
  · have hstep : questListDispatch nameOf [] none ⟨q, ch, pl, t₀, fq⟩ =
        ([(q, mkQuestListElement nameOf q ch pl t₀ fq)], some [q]) := by
      simp [questListDispatch, mkQuestListElement, adictFind?, adictInsert]
    have hrun : questListRun nameOf ([], none)
        ((t₀ :: ts).map (fun t => ⟨q, ch, pl, t, fq⟩)) =
        questListRun nameOf
          ([(q, mkQuestListElement nameOf q ch pl t₀ fq)], some [q])
          (ts.map (fun t => ⟨q, ch, pl, t, fq⟩)) := by
      simp only [List.map_cons, questListRun, List.foldl_cons]
      rw [hstep]
    rw [hrun]
    obtain ⟨e', hfind', hc, hs, hl⟩ := questListRun_count nameOf q ch pl fq
      ts [(q, mkQuestListElement nameOf q ch pl t₀ fq)] (some [q])
      (mkQuestListElement nameOf q ch pl t₀ fq)
      (by simp [adictFind?, List.find?_cons])
    refine ⟨e', hfind', ?_, ?_, ?_⟩
    · rw [hc]; simp [mkQuestListElement]; omega
    · rw [hs]; rfl
    · rw [hl]; rfl
  · exact fun reports st part q' e h =>
      questListRun_mono nameOf reports st part q' e h

/-- Witness for C8: three reports on one quest with timestamps 5, 3, 9
give count 3, since 3, latest 9; and the monotonicity part applied to a
concrete pre-seeded state. -/
theorem c8_quest_list_aggregate_witness :
    (∃ e', adictFind? (questListRun (fun _ => "name") ([], none)
        (([5, 3, 9] : List Int).map
          (fun t => ⟨"Q", "C", "P", t, true⟩))).1 "Q" = some e' ∧
      e'.count = 3 ∧ e'.since = 3 ∧ e'.latest = 9) ∧
    (∃ e', adictFind? (questListRun (fun _ => "name")
        ([("Q", ⟨"Q", "name", "C", "P", 5, 5, true, 1⟩)], some ["Q"])
        [⟨"Q", "C", "P", 3, true⟩]).1 "Q" = some e' ∧
      e'.since ≤ 5 ∧ 5 ≤ e'.latest ∧ 1 ≤ e'.count) := by
  have h := c8_quest_list_aggregate (fun _ => "name") "Q" "C" "P" true 5
    [3, 9]
  constructor
  · obtain ⟨e', hf, hc, hs, hl⟩ := h.1
    exact ⟨e', hf, by rw [hc]; rfl, by rw [hs]; decide, by rw [hl]; decide⟩
  · exact h.2 [⟨"Q", "C", "P", 3, true⟩]
      [("Q", ⟨"Q", "name", "C", "P", 5, 5, true, 1⟩)] (some ["Q"]) "Q"
      ⟨"Q", "name", "C", "P", 5, 5, true, 1⟩ (by decide)

/-! Embedding of the weekly-cohort partitioning rule
(`PartitioningRuleBy1HRun` and `get_week_start_day`, claim C9).  A date
is its day count since 1970-01-01 (a Thursday); `date.weekday()` is
Monday = 0. -/

def pyWeekday (d : Int) : Int := (d + 3) % 7

/-- Embeds `get_week_start_day`: the closest start-day date on or before
the target date. -/
def get_week_start_day (target_date : Int) (start_day : Int) : Int :=
  let delta := pyWeekday target_date - start_day
  let delta := if delta < 0 then delta + 7 else delta
  target_date - delta

/-- Civil (proleptic Gregorian) date from a day count since 1970-01-01. -/
def civilFromDays (z : Int) : Int × Int × Int :=
  let z := z + 719468
  let era := Int.fdiv z 146097
  let doe := z - era * 146097
  let yoe := (doe - doe / 1460 + doe / 36524 - doe / 146096) / 365
  let y := yoe + era * 400
  let doy := doe - (365 * yoe + yoe / 4 - yoe / 100)
  let mp := (5 * doy + 2) / 153
  let d := doy - (153 * mp + 2) / 5 + 1
  let m := mp + (if mp < 10 then 3 else -9)
  (y + (if m ≤ 2 then 1 else 0), m, d)

/-- Zero-padded decimal rendering of a nonnegative integer. -/
def padNum (width : Nat) (n : Int) : String :=
  let s := toString n.toNat
  ⟨List.replicate (width - s.length) '0'⟩ ++ s

/-- The `date.isoformat()` string of a day count. -/
def isoDate (z : Int) : String :=
  let c := civilFromDays z
  padNum 4 c.1 ++ "-" ++ padNum 2 c.2.1 ++ "-" ++ padNum 2 c.2.2

/-- ASCII lowering (`str.lower()` on the characters the tag test uses). -/
def pyLower (s : String) : String :=
  ⟨s.data.map (fun c =>
    if 'A' ≤ c ∧ c ≤ 'Z' then Char.ofNat (c.toNat + 32) else c)⟩

def isSpaceChar (c : Char) : Bool :=
  c = ' ' || c = '\t' || c = '\n' || c = '\r' || c = '\x0b' ||
    c = '\x0c' || c = '　'

/-- Python `str.split()` with no argument: split on whitespace runs,
discarding empty tokens. -/
def splitWSGo : List Char → List Char → List String
  | [], [] => []
  | [], cur => [⟨cur.reverse⟩]
  | c :: rest, cur =>
      if isSpaceChar c then
        if cur.isEmpty then splitWSGo rest []
        else ⟨cur.reverse⟩ :: splitWSGo rest []
      else splitWSGo rest (c :: cur)

def pySplitWS (s : String) : List String := splitWSGo s.data []

/-- The fields of a report that the weekly-cohort rule reads: the note
and the date (`timestamp.date()`) as a day count. -/
structure WkReport where
  note : String
  date : Int
deriving DecidableEq, Repr

/-- Appending a report to a partition (`partitions[key].append(report)`,
creating the bucket when absent). -/
def partitionAppend (ps : List (String × List WkReport)) (k : String)
    (r : WkReport) : List (String × List WkReport) :=
  match adictFind? ps k with
  | none => adictInsert ps k [r]
  | some l => adictInsert ps k (l ++ [r])

/-- Embeds `PartitioningRuleBy1HRun.dispatch` for a configured
`start_day`: only reports whose note contains the cohort tag as a
case-insensitive whitespace token are dispatched, keyed by the ISO date
of `week_start + (5 - start_day)` days. -/
def by1HRunDispatch (start_day : Int)
    (partitions : List (String × List WkReport)) (r : WkReport) :
    List (String × List WkReport) :=
  if "#fgo_1h_run" ∉ pySplitWS (pyLower r.note) then partitions
  else
    let week_start := get_week_start_day r.date start_day
    let display_date := week_start + (5 - start_day)
    partitionAppend partitions (isoDate display_date) r

/-- C9 counterexample: with week-start day 6 (Sunday) and a tagged report
dated Sunday 2024-03-10 (day 19792), the rule routes to partition
"2024-03-09" — the Saturday before the cohort week — although the unique
Saturday inside the cohort week [2024-03-10, 2024-03-16] is 2024-03-16
(day 19798). -/
theorem c9_weekly_cohort_rule_counterexample :
    by1HRunDispatch 6 [] ⟨"#FGO_1h_run today", 19792⟩ =
      [("2024-03-09", [⟨"#FGO_1h_run today", 19792⟩])] ∧
    get_week_start_day 19792 6 = 19792 ∧
    pyWeekday 19798 = 5 ∧ (19792 : Int) ≤ 19798 ∧
    (19798 : Int) ≤ 19792 + 6 ∧
    isoDate 19798 = "2024-03-16" ∧
    ("2024-03-09" : String) ≠ "2024-03-16" := by
  refine ⟨by decide, by decide, by decide, by decide, by decide,
    by decide, by decide⟩

/-- C9 (amended): for every configured week-start day in 0..5 the rule
dispatches a report iff its note contains "#fgo_1h_run" as a
case-insensitive whitespace-separated token, and routes it to the
partition keyed by the ISO date of the unique Saturday d with
week_start ≤ d ≤ week_start + 6, where week_start is the latest start-day
date not after the report's date.  (For week-start day 6 the code instead
routes to the Saturday before the cohort week, as the counterexample
shows.) -/
theorem c9_weekly_cohort_rule (start_day : Int) (h0 : 0 ≤ start_day)
    (h5 : start_day ≤ 5) (partitions : List (String × List WkReport))
    (r : WkReport) :
    ("#fgo_1h_run" ∉ pySplitWS (pyLower r.note) →
      by1HRunDispatch start_day partitions r = partitions) ∧
    ("#fgo_1h_run" ∈ pySplitWS (pyLower r.note) →
      ∃ d : Int, pyWeekday d = 5 ∧
        get_week_start_day r.date start_day ≤ d ∧
        d ≤ get_week_start_day r.date start_day + 6 ∧
        (∀ d' : Int, pyWeekday d' = 5 →
          get_week_start_day r.date start_day ≤ d' →
          d' ≤ get_week_start_day r.date start_day + 6 → d' = d) ∧
        by1HRunDispatch start_day partitions r =
          partitionAppend partitions (isoDate d) r) ∧
    (pyWeekday (get_week_start_day r.date start_day) = start_day ∧
      get_week_start_day r.date start_day ≤ r.date ∧
      r.date < get_week_start_day r.date start_day + 7) := by
  have hws : pyWeekday (get_week_start_day r.date start_day) = start_day ∧
      get_week_start_day r.date start_day ≤ r.date ∧
      r.date < get_week_start_day r.date start_day + 7 := by
    simp only [get_week_start_day, pyWeekday]
    split <;> omega
  refine ⟨fun h => by simp [by1HRunDispatch, h], fun h => ?_, hws⟩
  refine ⟨get_week_start_day r.date start_day + (5 - start_day),
    ?_, by omega, by omega, ?_, ?_⟩
  · have := hws.1
    simp only [pyWeekday] at this ⊢
    omega
  · intro d' hwd' hlo hhi
    have := hws.1
    simp only [pyWeekday] at this hwd'
    omega
  · simp [by1HRunDispatch, h]

/-- Witness for C9 (amended): week-start day 0, a tagged and an untagged
report dated Sunday 2024-03-10. -/
theorem c9_weekly_cohort_rule_witness :
    by1HRunDispatch 0 [] ⟨"no tag here", 19792⟩ = [] ∧
    (∃ d : Int, pyWeekday d = 5 ∧
      get_week_start_day 19792 0 ≤ d ∧
      d ≤ get_week_start_day 19792 0 + 6 ∧
      by1HRunDispatch 0 [] ⟨"#FGO_1h_run today", 19792⟩ =
        partitionAppend [] (isoDate d) ⟨"#FGO_1h_run today", 19792⟩) := by
  constructor
  · exact (c9_weekly_cohort_rule 0 (by decide) (by decide) []
      ⟨"no tag here", 19792⟩).1 (by decide)
  · obtain ⟨d, h1, h2, h3, _, h5⟩ :=
      (c9_weekly_cohort_rule 0 (by decide) (by decide) []
        ⟨"#FGO_1h_run today", 19792⟩).2.1 (by decide)
    exact ⟨d, h1, h2, h3, h5⟩

/-! Embedding of the report parser (`twitter.parse_tweet`, claims C4 and
C5).  Strings are processed as their character lists; the regular
expressions `RE_RUNCOUNT`, `RE_ITEMTRAIL`, `RE_ITEMCOUNT` and
`RE_INDEPENDENT_RUNCOUNT` are embedded as character-level functions.
`unicodedata.normalize('NFKC', ·)` is modelled by `nfkc`, restricted to
the compatibility mappings the parser relies on (fullwidth ASCII forms
and the ideographic space fold to ASCII); `difflib` similarity is the
`similarity` function carried by the `Detector`. -/

/-- Characters stripped by Python `str.strip()` in the inputs at hand. -/
def stripChars (l : List Char) : List Char :=
  ((l.dropWhile isSpaceChar).reverse.dropWhile isSpaceChar).reverse

def pyStrip (s : String) : String := ⟨stripChars s.data⟩

def startsWithL : List Char → List Char → Bool
  | [], _ => true
  | _ :: _, [] => false
  | p :: ps, c :: cs => p = c && startsWithL ps cs

def containsSubGo (sub : List Char) : List Char → Bool
  | [] => sub.isEmpty
  | c :: cs => startsWithL sub (c :: cs) || containsSubGo sub cs

/-- Python substring test (`sub in s`). -/
def containsSub (s sub : String) : Bool := containsSubGo sub.data s.data

/-- Python `s.find(c)`: first index of the character, `-1` if absent. -/
def pyFind (s : String) (c : Char) : Int :=
  match s.data.findIdx? (fun x => x = c) with
  | some i => (i : Int)
  | none => -1

/-- Python `s.rfind(c)`: last index of the character, `-1` if absent. -/
def pyRfind (s : String) (c : Char) : Int :=
  match s.data.reverse.findIdx? (fun x => x = c) with
  | some i => ((s.data.length - 1 - i : Nat) : Int)
  | none => -1

/-- Halfwidth or fullwidth decimal digit (the class `[0-9０-９]`). -/
def isDigitHW (c : Char) : Bool :=
  ('0' ≤ c && c ≤ '9') || ('０' ≤ c && c ≤ '９')

/-- The class `[1-9０-９]` opening `RE_INDEPENDENT_RUNCOUNT`. -/
def isNonzeroDigitHW (c : Char) : Bool :=
  ('1' ≤ c && c ≤ '9') || ('０' ≤ c && c ≤ '９')

/-- `RE_INDEPENDENT_RUNCOUNT.match(line)`: the line starts with a digit
run (first digit from `[1-9０-９]`) immediately followed by `周`. -/
def matchIndependentRuncount (l : List Char) : Bool :=
  match l with
  | [] => false
  | c :: rest =>
      isNonzeroDigitHW c &&
      (match rest.dropWhile isDigitHW with
       | '周' :: _ => true
       | _ => false)

/-- The numeric value of one (possibly fullwidth) digit, as `int()`
interprets it. -/
def digitVal (c : Char) : Nat :=
  if '0' ≤ c && c ≤ '9' then c.toNat - '0'.toNat else c.toNat - '０'.toNat

def isOpenParen (c : Char) : Bool := c = '(' || c = '（'
def isCloseParen (c : Char) : Bool := c = ')' || c = '）'
def isParenChar (c : Char) : Bool := isOpenParen c || isCloseParen c

/-- `RE_ITEMTRAIL.sub('', ·)`: strip one trailing parenthesized group
`[(（][^(（)）]+[)）]` when present at the end. -/
def itemTrailSub (l : List Char) : List Char :=
  match l.reverse with
  | [] => l
  | last :: revRest =>
      if isCloseParen last then
        let midRev := revRest.takeWhile (fun c => !isParenChar c)
        match revRest.drop midRev.length with
        | o :: pre' =>
            if isOpenParen o && !midRev.isEmpty then pre'.reverse
            else l
        | [] => l
      else l

/-- `RE_ITEMCOUNT.match(_token)`: a nonempty item prefix followed by a
maximal nonempty trailing digit run. -/
def itemCountMatch (l : List Char) : Option (List Char × List Char) :=
  let dsRev := l.reverse.takeWhile isDigitHW
  let restRev := l.reverse.drop dsRev.length
  if dsRev.isEmpty || restRev.isEmpty then none
  else some (restRev.reverse, dsRev.reverse)

/-- Shallow model of `unicodedata.normalize('NFKC', ·)`: fullwidth ASCII
forms (U+FF01..U+FF5E) and the ideographic space fold to their ASCII
counterparts; other characters are untouched. -/
def nfkcChar (c : Char) : Char :=
  if 0xFF01 ≤ c.toNat && c.toNat ≤ 0xFF5E then Char.ofNat (c.toNat - 0xFEE0)
  else if c = '　' then ' '
  else c

def nfkc (s : String) : String := ⟨s.data.map nfkcChar⟩

/-- Embeds `Detector.find_freequest`: recovery of a (chapter, place)
split for a space-free location string.  `Except.error` models the
`ValueError`/`KeyError` exceptions of the Python code (multiple chapter
or place matches, a broken reverse index). -/
def Detector.find_freequest (det : Detector) (expr : String) :
    Except String (Option (String × String)) :=
  if expr ∈ ambigious_place ∨ expr ∈ ambigious_quest then .ok none
  else
    let chapter_candidates := det.freequest_chapter_db.filter
      (fun ch => expr.startsWith ch)
    if chapter_candidates.length > 1 then
      .error "matched multiple chapters"
    else
      let afterChapter : Option (String × String) :=
        match chapter_candidates with
        | [ch] =>
            let place_candidate : String := ⟨expr.data.drop ch.data.length⟩
            if det.is_freequest ch place_candidate then
              some (ch, place_candidate)
            else none
        | _ => none
      match afterChapter with
      | some res => .ok (some res)
      | none =>
          let place_candidates := det.freequest_place_index.filter
            (fun kv => expr.startsWith kv.1)
          match place_candidates with
          | [pc] =>
              let quest_candidate :=
                pyStrip ⟨expr.data.drop pc.1.data.length⟩
              match sdictFind? det.quest_reverse_index pc.2 with
              | none => .error "KeyError: reverse index"
              | some chapter_place_quest =>
                  match pySplitWS chapter_place_quest with
                  | [_, place, quest] =>
                      if expr = place then .ok (some (place, quest))
                      else if det.similarity quest_candidate quest >
                          (7 : Rat) / 10 then
                        .ok (some (place, quest))
                      else .ok none
                  | _ => .error "ValueError: unpack"
          | [] => .ok none
          | _ => .error "matched multiple places or quests"

/-- The named kinds of `TweetParseError`. -/
inductive TweetParseError where
  | HeaderNotFoundError
  | HeaderEndBracketNotFoundError
  | RunCountNotFoundError
  | RunCountZeroError
deriving DecidableEq, Repr

/-- A Python exception escaping `parse_tweet`: a `TweetParseError` or an
unhandled `ValueError`/`KeyError` from the location-recovery path. -/
inductive PyErr where
  | parse (e : TweetParseError)
  | valueError (msg : String)
deriving DecidableEq, Repr

/-- A tweet as `parse_tweet` reads it. -/
structure TweetCopy where
  tweet_id : Int
  screen_name : String
  full_text : String
  timestamp : Int
deriving DecidableEq, Repr

/-- The parsed run report (`RunReport` as built by `parse_tweet`). -/
structure RunReportL where
  tweet_id : Int
  reporter : String
  chapter : String
  place : String
  runcount : Nat
  items : List (String × String)
  timestamp : Int
deriving DecidableEq, Repr

/-- The state of the line-scanning loop of `parse_tweet`. -/
structure ScanState where
  header : String
  header_found : Bool
  header_linenum : Nat
  lines : List String
deriving DecidableEq, Repr

def hasHeaderMark (l : String) : Bool := pyFind l '【' > -1

/-- The item-line collection of one loop iteration (the two `append`
checks: a `NaN` suffix, or a trailing digit after stripping a trailing
parenthetical). -/
def scanItemLines (ls : List String) (line : String) : List String :=
  let ls₁ := if line.data.length > 3 &&
      line.data.reverse.take 3 = ['N', 'a', 'N']
    then ls ++ [line] else ls
  if (match (itemTrailSub line.data).reverse with
      | c :: _ => isDigitHW c
      | [] => false)
    then ls₁ ++ [line] else ls₁

/-- The two-line header merge of one loop iteration. -/
def headerMergeStep (st : ScanState) (i : Nat) (line : String) : String :=
  if st.header_found && (i == st.header_linenum + 1) &&
      matchIndependentRuncount line.data
    then st.header ++ line else st.header

/-- The line-scanning loop of `parse_tweet` (indices, break on the
counter tag, header detection and two-line header merge, item-line
collection). -/
def scanLines : Nat → List String → ScanState → ScanState
  | _, [], st => st
  | i, line :: rest, st =>
      if containsSub line "#FGO周回カウンタ" then st
      else if hasHeaderMark line then
        scanLines (i + 1) rest ⟨line, true, i, st.lines⟩
      else if !st.header_found then scanLines (i + 1) rest st
      else if line = "" then scanLines (i + 1) rest st
      else
        scanLines (i + 1) rest
          ⟨headerMergeStep st i line, st.header_found, st.header_linenum,
           scanItemLines st.lines line⟩

/-- Python single-character `str.split`: split at every occurrence of
the separator, keeping empty pieces. -/
def splitOnCharGo (c : Char) : List Char → List Char → List String
  | [], acc => [⟨acc.reverse⟩]
  | x :: xs, acc =>
      if x = c then ⟨acc.reverse⟩ :: splitOnCharGo c xs []
      else splitOnCharGo c xs (x :: acc)

/-- Python `s.split(c)` for a one-character separator. -/
def pySplitChar (s : String) (c : Char) : List String :=
  splitOnCharGo c s.data []

/-- Item-line tokenization (`split('-')`) and item-dict construction. -/
def parseItems (lines : List String) : List (String × String) :=
  let tokens := lines.foldl
    (fun acc line => acc ++ pySplitChar (pyStrip line) '-') []
  tokens.foldl (fun d token =>
    if token = "" then d
    else if token.data.reverse.take 3 = ['N', 'a', 'N'] then
      sdictInsert d ⟨token.data.take (token.data.length - 3)⟩ "NaN"
    else
      match itemCountMatch (itemTrailSub token.data) with
      | none => d
      | some ic => sdictInsert d ⟨ic.1⟩ ⟨ic.2⟩) []

/-- The normalized location text extracted from a header: the stripped
text between `【` and `】`, NFKC-normalized. -/
def locExprOf (header : String) : String :=
  nfkc (pyStrip
    ⟨(header.data.take (pyFind header '】').toNat).drop
      ((pyFind header '【') + 1).toNat⟩)

/-- The maximal digit run immediately preceding the last `周` of the
header and after its first `】` (the `RE_RUNCOUNT.search` result, in
reverse). -/
def runCountDigits (h : String) : List Char :=
  ((h.data.take (pyRfind h '周').toNat).drop
    ((pyFind h '】') + 1).toNat).reverse.takeWhile isDigitHW

/-- The run count parsed from the header (`int(mo.group())`). -/
def runCountVal (h : String) : Nat :=
  (runCountDigits h).reverse.foldl (fun n c => 10 * n + digitVal c) 0

/-- The run-count extraction fails: no `周` in the header, no `周`
after the first `】`, or no digit directly before the last `周`. -/
def runCountMissing (h : String) : Prop :=
  pyRfind h '周' = -1 ∨ pyFind h '】' + 1 ≥ pyRfind h '周' ∨
    runCountDigits h = []

instance (h : String) : Decidable (runCountMissing h) := by
  unfold runCountMissing; infer_instance

/-- The location-token computation of `parse_tweet`: split on a space,
or fall back to `find_freequest` recovery (whose exceptions propagate). -/
def tokensOfE (det : Detector) (header : String) :
    Except PyErr (List String) :=
  let normalized_location := locExprOf header
  if normalized_location.data.contains ' ' then
    .ok (pySplitChar normalized_location ' ')
  else
    match det.find_freequest normalized_location with
    | .error e => .error (.valueError e)
    | .ok (some c) => .ok [c.1, c.2]
    | .ok none => .ok [normalized_location, ""]

/-- The chapter/place split of the location tokens (with the
parenthesized-last-token rescue). -/
def cpOf (location_tokens : List String) : String × String :=
  if location_tokens.length = 2 then
    (location_tokens.getD 0 "", location_tokens.getD 1 "")
  else if (location_tokens.getLastD "").startsWith "(" &&
      (location_tokens.getLastD "").endsWith ")" then
    (String.intercalate " " (location_tokens.dropLast.dropLast),
     String.join (location_tokens.drop (location_tokens.length - 2)))
  else
    (String.intercalate " " location_tokens.dropLast,
     location_tokens.getLastD "")

/-- The straight-line part of `parse_tweet` after the scanning loop. -/
def parseTail (det : Detector) (tweet : TweetCopy) (st : ScanState) :
    Except PyErr RunReportL :=
  if !st.header_found then .error (.parse .HeaderNotFoundError)
  else
    let header := st.header
    let loc_end_pos := pyFind header '】'
    if loc_end_pos = -1 then .error (.parse .HeaderEndBracketNotFoundError)
    else
      match tokensOfE det header with
      | .error e => .error e
      | .ok location_tokens =>
          let cp := cpOf location_tokens
          let runcount_pos := pyRfind header '周'
          if runcount_pos = -1 then .error (.parse .RunCountNotFoundError)
          else if loc_end_pos + 1 ≥ runcount_pos then
            .error (.parse .RunCountNotFoundError)
          else
            if (runCountDigits header).isEmpty then
              .error (.parse .RunCountNotFoundError)
            else
              if runCountVal header = 0 then
                .error (.parse .RunCountZeroError)
              else .ok ⟨tweet.tweet_id, tweet.screen_name, cp.1, cp.2,
                runCountVal header, parseItems st.lines, tweet.timestamp⟩

/-- Embeds `parse_tweet`: the line scan followed by the straight-line
header analysis. -/
def parse_tweet (det : Detector) (tweet : TweetCopy) :
    Except PyErr RunReportL :=
  let dirtylines := (pySplitChar tweet.full_text '\n').map pyStrip
  parseTail det tweet (scanLines 0 dirtylines ⟨"", false, 0, []⟩)

/-- The two-line extension of a candidate header: append the next line
when it is nonempty and starts with an independent run count. -/
def mergeCandidate (h : String) (rest : List String) : String :=
  match rest with
  | nxt :: _ =>
      if nxt ≠ "" ∧ matchIndependentRuncount nxt.data = true
      then h ++ nxt else h
  | [] => h

/-- Declarative description of the header the scanning loop selects: the
last line containing `【` (before the counter tag), extended by the
immediately following line when that line is nonempty and starts with an
independent run count. -/
def selectedHeader : List String → Option String
  | [] => none
  | l :: rest =>
      match selectedHeader rest with
      | some h => some h
      | none =>
          if hasHeaderMark l then some (mergeCandidate l rest) else none

theorem selectedHeader_cons (l : String) (rest : List String) :
    selectedHeader (l :: rest) =
      match selectedHeader rest with
      | some h => some h
      | none =>
          if hasHeaderMark l then some (mergeCandidate l rest)
          else none := rfl



theorem scanLines_spec (ls : List String)
    (hnotag : ∀ l ∈ ls, containsSub l "#FGO周回カウンタ" = false) :
    ∀ (i : Nat) (st : ScanState),
    st.header_found = false ∨ st.header_linenum < i →
    ((scanLines i ls st).header_found =
      (st.header_found || ls.any hasHeaderMark)) ∧
    ((scanLines i ls st).header =
      (selectedHeader ls).getD
        (if st.header_found = true ∧ st.header_linenum + 1 = i then
          mergeCandidate st.header ls
        else st.header)) := by
  induction ls with
  | nil =>
      intro i st _
      refine ⟨by simp [scanLines], ?_⟩
      cases hf : st.header_found <;>
        simp [scanLines, selectedHeader, mergeCandidate, hf]
  | cons l rest ih =>
      intro i st hpre
      have htag : containsSub l "#FGO周回カウンタ" = false :=
        hnotag l (by simp)
      have hnotag' : ∀ l' ∈ rest,
          containsSub l' "#FGO周回カウンタ" = false :=
        fun l' h => hnotag l' (List.mem_cons_of_mem _ h)
      by_cases hmark : hasHeaderMark l
      · have hstep : scanLines i (l :: rest) st =
            scanLines (i + 1) rest ⟨l, true, i, st.lines⟩ := by
          simp [scanLines, htag, hmark]
        obtain ⟨ihf, ihh⟩ := ih hnotag' (i + 1) ⟨l, true, i, st.lines⟩
          (Or.inr (by show i < i + 1; omega))
        dsimp only at ihf ihh
        rw [hstep]
        refine ⟨by rw [ihf]; simp [hmark], ?_⟩
        rw [ihh, selectedHeader_cons]
        cases hsel : selectedHeader rest with
        | some h => simp
        | none => simp [hmark]
      · by_cases hfound : st.header_found
        · have hlt : st.header_linenum < i := by
            rcases hpre with h | h
            · rw [h] at hfound; cases hfound
            · exact h
          have hne : ¬(st.header_found = true ∧
              st.header_linenum + 1 = i + 1) := by
            intro hcontr; omega
          by_cases hempty : l = ""
          · subst hempty
            have hstep : scanLines i ("" :: rest) st =
                scanLines (i + 1) rest st := by
              simp [scanLines, htag, hmark, hfound]
            obtain ⟨ihf, ihh⟩ := ih hnotag' (i + 1) st
              (Or.inr (by omega))
            rw [hstep]
            refine ⟨by rw [ihf]; simp [hmark], ?_⟩
            rw [ihh, selectedHeader_cons]
            cases hsel : selectedHeader rest with
            | some h => simp
            | none =>
                have hmc : mergeCandidate st.header ("" :: rest) =
                    st.header := by simp [mergeCandidate]
                simp only [hmark, Bool.false_eq_true, if_false,
                  Option.getD_none]
                rw [if_neg hne, hmc]
                split <;> rfl
          · have hstep : scanLines i (l :: rest) st =
                scanLines (i + 1) rest
                  ⟨headerMergeStep st i l, st.header_found,
                   st.header_linenum, scanItemLines st.lines l⟩ := by
              simp [scanLines, htag, hmark, hfound, hempty]
            obtain ⟨ihf, ihh⟩ := ih hnotag' (i + 1)
              ⟨headerMergeStep st i l, st.header_found,
               st.header_linenum, scanItemLines st.lines l⟩
              (Or.inr (by show st.header_linenum < i + 1; omega))
            dsimp only at ihf ihh
            rw [hstep]
            refine ⟨by rw [ihf]; simp [hmark], ?_⟩
            rw [ihh, selectedHeader_cons]
            cases hsel : selectedHeader rest with
            | some h => simp
            | none =>
                simp only [hmark, Bool.false_eq_true, if_false,
                  Option.getD_none]
                rw [if_neg hne]
                by_cases hli : st.header_linenum + 1 = i
                · rw [if_pos ⟨hfound, hli⟩]
                  have hbeq : (i == st.header_linenum + 1) = true := by
                    simp [hli.symm]
                  simp only [headerMergeStep, hfound, hbeq,
                    Bool.true_and, mergeCandidate]
                  by_cases hm : matchIndependentRuncount l.data <;>
                    simp [hm, hempty]
                · rw [if_neg (fun hcontr => hli hcontr.2)]
                  have hbeq : (i == st.header_linenum + 1) = false := by
                    simp
                    omega
                  simp [headerMergeStep, hbeq]
        · have hf : st.header_found = false := by simpa using hfound
          have hstep : scanLines i (l :: rest) st =
              scanLines (i + 1) rest st := by
            simp [scanLines, htag, hmark, hf]
          obtain ⟨ihf, ihh⟩ := ih hnotag' (i + 1) st (Or.inl hf)
          rw [hstep]
          refine ⟨by rw [ihf]; simp [hmark], ?_⟩
          rw [ihh, selectedHeader_cons]
          cases hsel : selectedHeader rest with
          | some h => simp
          | none => simp [hmark, hf]

/-- The scan ignores everything from the first line containing the
counter tag onwards. -/
theorem scanLines_cut (ls : List String) :
    ∀ (i : Nat) (st : ScanState),
    scanLines i ls st =
      scanLines i
        (ls.takeWhile fun l => !containsSub l "#FGO周回カウンタ") st := by
  induction ls with
  | nil => intro i st; rfl
  | cons l rest ih =>
      intro i st
      rw [List.takeWhile_cons]
      by_cases htag : containsSub l "#FGO周回カウンタ"
      · simp [scanLines, htag]
      · have hb : (!containsSub l "#FGO周回カウンタ") = true := by
          simp [htag]
        rw [hb]
        simp only [scanLines]
        split_ifs <;> first | rfl | exact ih _ _

/-- The stripped lines of a tweet before the counter tag. -/
def cutLines (t : TweetCopy) : List String :=
  ((pySplitChar t.full_text '\n').map pyStrip).takeWhile
    (fun l => !containsSub l "#FGO周回カウンタ")

/-- Whether a header line occurs before the counter tag. -/
def headerFoundOf (t : TweetCopy) : Bool :=
  (cutLines t).any hasHeaderMark

/-- The header the scan selects for a tweet (empty when none found). -/
def headerOf (t : TweetCopy) : String :=
  (selectedHeader (cutLines t)).getD ""

/-- The normalized bracketed location of a tweet. -/
def normLocOf (t : TweetCopy) : String := locExprOf (headerOf t)

/-- `parse_tweet` is `parseTail` at a scan state whose header facts are
`headerFoundOf`/`headerOf`. -/
theorem parse_tweet_eq_tail (det : Detector) (t : TweetCopy) :
    ∃ st : ScanState, parse_tweet det t = parseTail det t st ∧
      st.header_found = headerFoundOf t ∧ st.header = headerOf t := by
  refine ⟨scanLines 0 ((pySplitChar t.full_text '\n').map pyStrip)
    ⟨"", false, 0, []⟩, rfl, ?_⟩
  have hscan : scanLines 0 ((pySplitChar t.full_text '\n').map pyStrip)
      ⟨"", false, 0, []⟩ = scanLines 0 (cutLines t) ⟨"", false, 0, []⟩ := by
    unfold cutLines
    exact scanLines_cut _ 0 _
  have hnotag : ∀ l ∈ cutLines t,
      containsSub l "#FGO周回カウンタ" = false := by
    intro l hl
    have h := List.mem_takeWhile_imp hl
    simpa using h
  obtain ⟨h1, h2⟩ := scanLines_spec (cutLines t) hnotag 0
    ⟨"", false, 0, []⟩ (Or.inl rfl)
  rw [hscan]
  constructor
  · rw [h1]
    simp [headerFoundOf]
  · rw [h2]
    simp [headerOf]

/-- No header found: `parseTail` raises `HeaderNotFoundError`. -/
theorem parseTail_not_found (det : Detector) (t : TweetCopy)
    (st : ScanState) (h : st.header_found = false) :
    parseTail det t st = .error (.parse .HeaderNotFoundError) := by
  unfold parseTail
  rw [h]
  rfl

/-- Header found but no `】`: `parseTail` raises
`HeaderEndBracketNotFoundError`. -/
theorem parseTail_no_end (det : Detector) (t : TweetCopy)
    (st : ScanState) (hfound : st.header_found = true)
    (hend : pyFind st.header '】' = -1) :
    parseTail det t st = .error (.parse .HeaderEndBracketNotFoundError) := by
  unfold parseTail
  rw [hfound]
  simp only [Bool.not_true, Bool.false_eq_true, if_false]
  rw [if_pos hend]

/-- When location recovery does not raise, `tokensOfE` succeeds. -/
theorem tokensOfE_ok (det : Detector) (header : String)
    (hff : exceptErr (det.find_freequest (locExprOf header)) = false) :
    ∃ toks : List String, tokensOfE det header = .ok toks := by
  unfold tokensOfE
  by_cases hsp : (locExprOf header).data.contains ' '
  · exact ⟨_, by rw [if_pos hsp]⟩
  · rw [if_neg hsp]
    cases hfq : det.find_freequest (locExprOf header) with
    | error e => rw [hfq] at hff; exact absurd hff (by simp [exceptErr])
    | ok c =>
        cases c with
        | some p => exact ⟨_, rfl⟩
        | none => exact ⟨_, rfl⟩

/-- Header and `】` present and location recovery silent: the outcome
of `parseTail` is decided by the run-count extraction. -/
theorem parseTail_located (det : Detector) (t : TweetCopy)
    (st : ScanState) (hfound : st.header_found = true)
    (hend : pyFind st.header '】' ≠ -1)
    (hff : exceptErr (det.find_freequest (locExprOf st.header)) = false) :
    (runCountMissing st.header →
      parseTail det t st = .error (.parse .RunCountNotFoundError)) ∧
    (¬runCountMissing st.header → runCountVal st.header = 0 →
      parseTail det t st = .error (.parse .RunCountZeroError)) ∧
    (¬runCountMissing st.header → runCountVal st.header ≠ 0 →
      ∃ r : RunReportL, parseTail det t st = .ok r ∧
        r.runcount = runCountVal st.header) := by
  obtain ⟨toks, htoks⟩ := tokensOfE_ok det st.header hff
  unfold parseTail
  rw [hfound]
  simp only [Bool.not_true, Bool.false_eq_true, if_false]
  rw [if_neg hend, htoks]
  simp only []
  refine ⟨?_, ?_, ?_⟩
  · intro hrm
    split_ifs with h1 h2 h3 h4 <;> try rfl
    all_goals
      rcases hrm with h | h | h
      · exact absurd h h1
      · exact absurd h h2
      · exact absurd h (by simpa [List.isEmpty_iff] using h3)
  · intro hnrm h0
    split_ifs with h1 h2 h3
    · exact absurd (Or.inl h1) hnrm
    · exact absurd (Or.inr (Or.inl h2)) hnrm
    · exact absurd (Or.inr (Or.inr (by simpa [List.isEmpty_iff] using h3)))
        hnrm
    · rfl
  · intro hnrm hnz
    split_ifs with h1 h2 h3
    · exact absurd (Or.inl h1) hnrm
    · exact absurd (Or.inr (Or.inl h2)) hnrm
    · exact absurd (Or.inr (Or.inr (by simpa [List.isEmpty_iff] using h3)))
        hnrm
    · exact ⟨_, rfl, rfl⟩

/-- When no catalog chapter name and no place-index key is a prefix of
the expression, `find_freequest` returns no candidate (and raises
nothing). -/
theorem find_freequest_none (det : Detector) (expr : String)
    (hch : det.freequest_chapter_db.filter
      (fun ch => expr.startsWith ch) = [])
    (hpl : det.freequest_place_index.filter
      (fun kv => expr.startsWith kv.1) = []) :
    det.find_freequest expr = .ok none := by
  unfold Detector.find_freequest
  by_cases hamb : expr ∈ ambigious_place ∨ expr ∈ ambigious_quest
  · rw [if_pos hamb]
  · rw [if_neg hamb]
    simp only [hch, hpl]
    rfl

/-- The no-space fallback of `parseTail`: location recovery finds no
candidate, so the whole normalized location becomes the chapter and the
place is empty. -/
theorem parseTail_fallback (det : Detector) (t : TweetCopy)
    (st : ScanState) (hfound : st.header_found = true)
    (hend : pyFind st.header '】' ≠ -1)
    (hns : (locExprOf st.header).data.contains ' ' = false)
    (hfq : det.find_freequest (locExprOf st.header) = .ok none)
    (hnrm : ¬runCountMissing st.header)
    (hnz : runCountVal st.header ≠ 0) :
    parseTail det t st = .ok ⟨t.tweet_id, t.screen_name,
      locExprOf st.header, "", runCountVal st.header,
      parseItems st.lines, t.timestamp⟩ := by
  have htoks : tokensOfE det st.header = .ok [locExprOf st.header, ""] := by
    unfold tokensOfE
    simp only [hns, Bool.false_eq_true, if_false, hfq]
  unfold parseTail
  rw [hfound]
  simp only [Bool.not_true, Bool.false_eq_true, if_false]
  rw [if_neg hend, htoks]
  simp only []
  split_ifs with h1 h2 h3
  · exact absurd (Or.inl h1) hnrm
  · exact absurd (Or.inr (Or.inl h2)) hnrm
  · exact absurd (Or.inr (Or.inr (by simpa [List.isEmpty_iff] using h3)))
      hnrm
  · rfl

/-- C4: provided location recovery raises nothing, `parse_tweet` fails
with exactly the named error kind for each malformed input: with
`HeaderNotFoundError` iff no line containing `【` occurs before the
counter tag; with `HeaderEndBracketNotFoundError` iff a header is found
but contains no `】`; with `RunCountNotFoundError` iff the header is
well-delimited but no `周` follows the `】` or no (halfwidth or
fullwidth) digit run precedes the last `周`; with `RunCountZeroError`
iff the extracted count exists and is `0`; and otherwise it returns a
report carrying the extracted count. -/
theorem c4_parse_tweet_error_kinds (det : Detector) (t : TweetCopy)
    (hff : exceptErr (det.find_freequest (normLocOf t)) = false) :
    (parse_tweet det t = .error (.parse .HeaderNotFoundError) ↔
      headerFoundOf t = false) ∧
    (parse_tweet det t = .error (.parse .HeaderEndBracketNotFoundError) ↔
      headerFoundOf t = true ∧ pyFind (headerOf t) '】' = -1) ∧
    (parse_tweet det t = .error (.parse .RunCountNotFoundError) ↔
      headerFoundOf t = true ∧ pyFind (headerOf t) '】' ≠ -1 ∧
        runCountMissing (headerOf t)) ∧
    (parse_tweet det t = .error (.parse .RunCountZeroError) ↔
      headerFoundOf t = true ∧ pyFind (headerOf t) '】' ≠ -1 ∧
        ¬runCountMissing (headerOf t) ∧ runCountVal (headerOf t) = 0) ∧
    (headerFoundOf t = true → pyFind (headerOf t) '】' ≠ -1 →
      ¬runCountMissing (headerOf t) → runCountVal (headerOf t) ≠ 0 →
      ∃ r : RunReportL, parse_tweet det t = .ok r ∧
        r.runcount = runCountVal (headerOf t)) := by
  obtain ⟨st, hpt, hfd, hhd⟩ := parse_tweet_eq_tail det t
  rw [hpt]
  by_cases hnf : headerFoundOf t = true
  · by_cases hend : pyFind (headerOf t) '】' = -1
    · have h0 : parseTail det t st =
          .error (.parse .HeaderEndBracketNotFoundError) :=
        parseTail_no_end det t st (hfd.trans hnf) (by rw [hhd]; exact hend)
      refine ⟨?_, ?_, ?_, ?_, ?_⟩ <;> simp [h0, hnf, hend]
    · obtain ⟨hrm, hz, hok⟩ := parseTail_located det t st (hfd.trans hnf)
        (by rw [hhd]; exact hend) (by rw [hhd]; exact hff)
      rw [hhd] at hrm hz hok
      by_cases hm : runCountMissing (headerOf t)
      · have h0 := hrm hm
        refine ⟨?_, ?_, ?_, ?_, ?_⟩ <;> simp [h0, hnf, hend, hm]
      · by_cases hv : runCountVal (headerOf t) = 0
        · have h0 := hz hm hv
          refine ⟨?_, ?_, ?_, ?_, ?_⟩ <;> simp [h0, hnf, hend, hm, hv]
        · obtain ⟨r, hr, hrc⟩ := hok hm hv
          refine ⟨?_, ?_, ?_, ?_, ?_⟩
          · simp [hr, hnf]
          · simp [hr, hend]
          · simp [hr, hm]
          · simp [hr, hv]
          · intro _ _ _ _
            exact ⟨r, hr, hrc⟩
  · have hf : headerFoundOf t = false := by simpa using hnf
    have h0 : parseTail det t st = .error (.parse .HeaderNotFoundError) :=
      parseTail_not_found det t st (hfd.trans hf)
    refine ⟨?_, ?_, ?_, ?_, ?_⟩ <;> simp [h0, hf]

/-- A detector with an empty catalog. -/
def plainDetector : Detector := ⟨[], [], [], [], [], fun _ _ => 0⟩

/-- A well-formed report tweet: fullwidth location and count, counter
tag on the last line. -/
def c4Tweet : TweetCopy :=
  ⟨1, "reporter", "【ＡＢ】５周\n#FGO周回カウンタ", 0⟩

theorem c4_parse_tweet_error_kinds_witness :
    exceptErr (Detector.find_freequest plainDetector
      (normLocOf c4Tweet)) = false ∧
    headerFoundOf c4Tweet = true ∧
    runCountVal (headerOf c4Tweet) = 5 ∧
    (∃ r : RunReportL, parse_tweet plainDetector c4Tweet = .ok r ∧
      r.runcount = runCountVal (headerOf c4Tweet)) :=
  ⟨by decide, by decide, by decide,
    (c4_parse_tweet_error_kinds plainDetector c4Tweet (by decide)).2.2.2.2
      (by decide) (by decide) (by decide) (by decide)⟩

/-- C5: a post whose bracketed location contains no space after
normalization, matches no catalog chapter name as a prefix and no
catalog place or place+quest concatenation as a prefix, parses without
error (given its header and run count are otherwise well-formed) into a
report whose chapter is the full normalized location and whose place is
empty. -/
theorem c5_no_space_fallback (det : Detector) (t : TweetCopy)
    (hfound : headerFoundOf t = true)
    (hend : pyFind (headerOf t) '】' ≠ -1)
    (hns : (normLocOf t).data.contains ' ' = false)
    (hch : det.freequest_chapter_db.filter
      (fun ch => (normLocOf t).startsWith ch) = [])
    (hpl : det.freequest_place_index.filter
      (fun kv => (normLocOf t).startsWith kv.1) = [])
    (hnrm : ¬runCountMissing (headerOf t))
    (hnz : runCountVal (headerOf t) ≠ 0) :
    ∃ r : RunReportL, parse_tweet det t = .ok r ∧
      r.chapter = normLocOf t ∧ r.place = "" := by
  obtain ⟨st, hpt, hfd, hhd⟩ := parse_tweet_eq_tail det t
  have hfq : det.find_freequest (locExprOf st.header) = .ok none := by
    rw [hhd]
    exact find_freequest_none det (normLocOf t) hch hpl
  have h0 := parseTail_fallback det t st (hfd.trans hfound)
    (by rw [hhd]; exact hend) (by rw [hhd]; exact hns) hfq
    (by rw [hhd]; exact hnrm) (by rw [hhd]; exact hnz)
  refine ⟨⟨t.tweet_id, t.screen_name, locExprOf st.header, "",
    runCountVal st.header, parseItems st.lines, t.timestamp⟩,
    by rw [hpt]; exact h0, ?_, rfl⟩
  show locExprOf st.header = normLocOf t
  rw [hhd]
  rfl

/-- A tweet with a space-free location unknown to the catalog. -/
def c5Tweet : TweetCopy :=
  ⟨2, "reporter2", "【未知の場所】３周\n#FGO周回カウンタ", 5⟩

theorem c5_no_space_fallback_witness :
    (normLocOf c5Tweet).data.contains ' ' = false ∧
    runCountVal (headerOf c5Tweet) = 3 ∧
    (∃ r : RunReportL, parse_tweet plainDetector c5Tweet = .ok r ∧
      r.chapter = normLocOf c5Tweet ∧ r.place = "") :=
  ⟨by decide, by decide,
    c5_no_space_fallback plainDetector c5Tweet (by decide) (by decide)
      (by decide) (by decide) (by decide) (by decide) (by decide)⟩
